import Mathlib

/-!
# TermInfo: a shallow embedding of the terminfo decoder, capability compiler and VM

This file embeds the JavaScript sources of the TermInfo repository
(`terminfo.js`, `compiler.js`, `program.js`, `enum.js`) as executable Lean
definitions and proves properties of them.

Conventions of the embedding:

* JavaScript strings are `List Char` (`Str`); byte buffers are `List Nat`
  with every element < 256 by construction of the inputs.
* JavaScript numbers that can arise in the embedded code are integers,
  `NaN` or `±Infinity`; they are modelled by `JsNum`.  The embedded code
  paths never produce other non-integral numbers (the only division is
  `Math.floor(a / b)`).
* Thrown JavaScript errors are modelled by `Except JsError`.  The error
  classes of the repository's `errors.js` (not part of the sources given,
  only its callers are) are modelled from the spec's §7 error kinds.
* Loops whose termination is by a strictly decreasing position are written
  with an explicit fuel argument; call sites pass a fuel that provably
  dominates the number of iterations, so the out-of-fuel branches are
  unreachable.
-/

/-- JavaScript strings, represented as lists of characters. -/
abbrev Str := List Char

/-- The JavaScript numbers reachable in the embedded code: integers,
`NaN` and signed `Infinity`. -/
inductive JsNum where
  | fin (i : Int)
  | nan
  | inf (pos : Bool)
  deriving DecidableEq, Repr

/-- A value on the VM stack / in a register / in a parameter slot:
a number, a string, `null` (the initial register value) or `undefined`
(out-of-range array reads). -/
inductive Value where
  | vnum (n : JsNum)
  | vstr (s : Str)
  | vnull
  | vundefined
  deriving DecidableEq, Repr

/-- Convenience: an integer value. -/
def Value.vint (i : Int) : Value := .vnum (.fin i)

/-- Thrown errors.  `typeError` and `rangeError` are the JavaScript
built-ins; the others model the repository's `errors.js` classes
(modelled from the spec §7: Format, Parse, Runtime error kinds). -/
inductive JsError where
  | typeError (msg : String)
  | rangeError (msg : String)
  | formatError (msg : String)
  | parseError (msg : String)
  | runtimeError (msg : String)
  deriving DecidableEq, Repr

deriving instance DecidableEq for Except

namespace JsNum

/-- JavaScript `<` on numbers (`NaN` compares false). -/
def lt : JsNum → JsNum → Bool
  | .fin a, .fin b => a < b
  | .fin _, .inf p => p
  | .inf p, .fin _ => !p
  | .inf p, .inf q => !p && q
  | _, _ => false

/-- JavaScript `>` on numbers (`NaN` compares false). -/
def gt (a b : JsNum) : Bool := lt b a

/-- JavaScript `+` restricted to numbers. -/
def add : JsNum → JsNum → JsNum
  | .fin a, .fin b => .fin (a + b)
  | .inf p, .fin _ => .inf p
  | .fin _, .inf q => .inf q
  | .inf p, .inf q => if p = q then .inf p else .nan
  | _, _ => .nan

def sub : JsNum → JsNum → JsNum
  | .fin a, .fin b => .fin (a - b)
  | .inf p, .fin _ => .inf p
  | .fin _, .inf q => .inf (!q)
  | .inf p, .inf q => if p = q then .nan else .inf p
  | _, _ => .nan

def mul : JsNum → JsNum → JsNum
  | .fin a, .fin b => .fin (a * b)
  | .inf p, .fin b | .fin b, .inf p =>
      if b = 0 then .nan else .inf (p = (0 < b))
  | .inf p, .inf q => .inf (p = q)
  | _, _ => .nan

/-- `Math.floor(a / b)` as used by the DIVIDE opcode. -/
def floorDiv : JsNum → JsNum → JsNum
  | .fin a, .fin b =>
      if b = 0 then (if a = 0 then .nan else .inf (0 < a)) else .fin (Int.fdiv a b)
  | .inf p, .fin b => if b < 0 then .inf (!p) else .inf p
  | .fin _, .inf _ => .fin 0
  | _, _ => .nan

/-- JavaScript `%` (truncated remainder, sign of the dividend). -/
def rem : JsNum → JsNum → JsNum
  | .fin a, .fin b => if b = 0 then .nan else .fin (Int.tmod a b)
  | .fin a, .inf _ => .fin a
  | _, _ => .nan

/-- `ToInt32` as used by the bitwise operators: take the value mod 2^32,
interpreted as a signed 32-bit integer; `NaN` and `Infinity` map to 0. -/
def toInt32 (n : JsNum) : Int :=
  match n with
  | .fin i =>
      let u := (i % (2 ^ 32 : Int)).toNat
      if u < 2 ^ 31 then (u : Int) else (u : Int) - 2 ^ 32
  | _ => 0

/-- The unsigned 32-bit pattern of a number (helper for bitwise ops). -/
def toUint32 (n : JsNum) : Nat :=
  match n with
  | .fin i => (i % (2 ^ 32 : Int)).toNat
  | _ => 0

/-- Reinterpret an unsigned 32-bit pattern as a signed 32-bit integer. -/
def ofUint32 (u : Nat) : JsNum :=
  if u % 2 ^ 32 < 2 ^ 31 then .fin (u % 2 ^ 32 : Nat) else .fin ((u % 2 ^ 32 : Nat) - 2 ^ 32)

def band (a b : JsNum) : JsNum := ofUint32 (Nat.land a.toUint32 b.toUint32)
def bor (a b : JsNum) : JsNum := ofUint32 (Nat.lor a.toUint32 b.toUint32)
def bxor (a b : JsNum) : JsNum := ofUint32 (Nat.xor a.toUint32 b.toUint32)
/-- JavaScript `~`: bitwise complement on the 32-bit pattern. -/
def bnot (a : JsNum) : JsNum := ofUint32 (Nat.xor a.toUint32 (2 ^ 32 - 1))

end JsNum

/-! ## JavaScript string/number conversions -/

/-- Digit characters as produced by `Number.prototype.toString(radix)`
(lower case, radix ≤ 16). -/
def jsDigitChar (d : Nat) : Char :=
  if d < 10 then Char.ofNat (48 + d) else Char.ofNat (87 + d)

/-- Digits of `n` in base `radix`, most significant first (fuel-structural;
`fuel = n + 1` always suffices since the value shrinks each step). -/
def natToDigitsAux (radix : Nat) : Nat → Nat → Str
  | 0, _ => []
  | _ + 1, 0 => []
  | fuel + 1, n => natToDigitsAux radix fuel (n / radix) ++ [jsDigitChar (n % radix)]

def natToDigits (radix n : Nat) : Str :=
  if n = 0 then ['0'] else natToDigitsAux radix (n + 1) n

/-- `Number.prototype.toString(radix)` for the numbers our code produces. -/
def JsNum.toStr (radix : Nat) : JsNum → Str
  | .fin i => (if i < 0 then ['-'] else []) ++ natToDigits radix i.natAbs
  | .nan => "NaN".data
  | .inf true => "Infinity".data
  | .inf false => "-Infinity".data

/-- `String.prototype.toUpperCase` restricted to ASCII (the formatter only
upper-cases hex digit strings). -/
def jsToUpper (s : Str) : Str :=
  s.map fun c => if 'a' ≤ c ∧ c ≤ 'z' then Char.ofNat (c.toNat - 32) else c

/-- `String.fromCharCode` of one number: `ToUint16`, then the code unit.
(A code unit in the surrogate range is not a scalar value; `Char.ofNat`
maps it to NUL.  The embedded programs only produce ASCII codes.) -/
def jsFromCharCode (n : JsNum) : Char :=
  match n with
  | .fin i => Char.ofNat (i % (2 ^ 16 : Int)).toNat
  | _ => Char.ofNat 0

/-- `Number(string)`: the decimal integer strings that can reach this
conversion in the embedded code (optional sign, digits); everything else
is `NaN`.  (The full JavaScript grammar also allows white space, hex,
and fractional forms; those never reach this conversion here.) -/
def jsNumberOfString (s : Str) : JsNum :=
  match s with
  | [] => .fin 0
  | '-' :: rest =>
      if rest ≠ [] ∧ rest.all Char.isDigit then
        .fin (-(rest.foldl (fun a c => a * 10 + (c.toNat - 48)) 0 : Nat))
      else .nan
  | _ =>
      if s.all Char.isDigit then
        .fin (s.foldl (fun a c => a * 10 + (c.toNat - 48)) 0 : Nat)
      else .nan

/-- `Number(v)` for a stack value (`ToNumber`). -/
def jsToNumber : Value → JsNum
  | .vnum n => n
  | .vstr s => jsNumberOfString s
  | .vnull => .fin 0
  | .vundefined => .nan

/-- JavaScript truthiness of a value. -/
def jsTruthy : Value → Bool
  | .vnum (.fin i) => i ≠ 0
  | .vnum .nan => false
  | .vnum (.inf _) => true
  | .vstr s => s ≠ []
  | .vnull => false
  | .vundefined => false

/-- JavaScript `===` on stack values (`NaN === NaN` is false). -/
def jsStrictEq : Value → Value → Bool
  | .vnum .nan, _ => false
  | _, .vnum .nan => false
  | .vnum a, .vnum b => a = b
  | .vstr a, .vstr b => a = b
  | .vnull, .vnull => true
  | .vundefined, .vundefined => true
  | _, _ => false

/-- Lexicographic `<` on JavaScript strings (by code unit). -/
def strLt : Str → Str → Bool
  | [], [] => false
  | [], _ :: _ => true
  | _ :: _, [] => false
  | a :: as, b :: bs => if a = b then strLt as bs else decide (a < b)

/-- JavaScript `<` on stack values: string/string compares
lexicographically, otherwise both sides convert with `ToNumber`. -/
def jsLtV : Value → Value → Bool
  | .vstr a, .vstr b => strLt a b
  | a, b => JsNum.lt (jsToNumber a) (jsToNumber b)

/-- JavaScript `>` on stack values. -/
def jsGtV (a b : Value) : Bool := jsLtV b a

/-! ## The printf-style formatter (`program.js` `fmtNumericCommon`, `fmtd`,
`fmto`, `fmtx`, `fmts`) -/

/-- The fields of a PRINT instruction (`Instruction.#defaults[Opcode.PRINT]`
plus the values filled in by `genPrint`). -/
structure PrintSpec where
  format : Char := ' '
  zeroPad : Bool := false
  alternateForm : Bool := false
  leftJustify : Bool := false
  positiveSignBlank : Bool := false
  sign : Bool := false
  width : Nat := 0
  precision : Nat := 0
  deriving DecidableEq, Repr

/-- `fmtNumericCommon(insn, n, radix, uppercase, prefix)` from `program.js`. -/
def fmtNumericCommon (insn : PrintSpec) (n : JsNum) (radix : Nat)
    (uppercase : Bool) (prefix0 : Str) : Str :=
  let s0 := n.toStr radix
  let s1 := if uppercase then jsToUpper s0 else s0
  -- `if (n < 0) { prefix = "-" + prefix; s = s.slice(1); }`
  let pre2 := if JsNum.lt n (.fin 0) then '-' :: prefix0 else prefix0
  let s2 := if JsNum.lt n (.fin 0) then s1.drop 1 else s1
  -- precision left-pads with zeros; cancel an octal `0` prefix when the
  -- padding already produced a leading zero
  let padded := List.replicate (insn.precision - s2.length) '0' ++ s2
  let doPad := insn.precision > 0 ∧ s2.length < insn.precision
  let s3 := if doPad then padded else s2
  let pre3 :=
    if doPad ∧ padded.headD ' ' = '0' ∧ radix = 8 ∧ pre2.getLast? = some '0' then
      pre2.dropLast
    else pre2
  let pre4 :=
    if insn.positiveSignBlank ∧ ¬insn.sign ∧ JsNum.gt n (.fin (-1)) then
      ' ' :: pre3
    else pre3
  let pre5 := if insn.sign ∧ JsNum.gt n (.fin (-1)) then '+' :: pre4 else pre4
  let space : Int := (insn.width : Int) - (pre5.length + s3.length)
  if space < 1 then pre5 ++ s3
  else if insn.leftJustify then pre5 ++ s3 ++ List.replicate space.toNat ' '
  else if ¬insn.zeroPad then List.replicate space.toNat ' ' ++ pre5 ++ s3
  else pre5 ++ List.replicate space.toNat '0' ++ s3

/-- `fmtd` from `program.js`. -/
def fmtd (insn : PrintSpec) (n : JsNum) : Str :=
  fmtNumericCommon insn n 10 false []

/-- `fmto` from `program.js`: octal with an alternate-form `0` prefix for
positive values. -/
def fmto (insn : PrintSpec) (n : JsNum) : Str :=
  let prefix0 : Str := if insn.alternateForm ∧ JsNum.gt n (.fin 0) then ['0'] else []
  fmtNumericCommon insn n 8 false prefix0

/-- `fmtx` from `program.js`: hex with an alternate-form `0x`/`0X` prefix. -/
def fmtx (insn : PrintSpec) (uppercase : Bool) (n : JsNum) : Str :=
  let prefix0 : Str :=
    if insn.alternateForm then (if uppercase then "0X".data else "0x".data) else []
  fmtNumericCommon insn n 16 uppercase prefix0

/-- `fmts` from `program.js`: string formatting (`%s`). -/
def fmts (insn : PrintSpec) (s0 : Str) : Str :=
  let s := if insn.precision ≠ 0 then s0.take insn.precision else s0
  if insn.width < 1 then s
  else
    let space : Int := (insn.width : Int) - s.length
    if space < 1 then s
    else if insn.leftJustify then s ++ List.replicate space.toNat ' '
    else List.replicate space.toNat ' ' ++ s

/-! ## Instructions (`compiler.js` `Opcode` and `Instruction`) -/

/-- Compiled instructions: a tagged variant keyed by opcode, each carrying
only the fields relevant to that opcode.  The `tiFlow*` markers appear in
the raw token stream only and are rewritten to `jumpZero`/`jump` by
`convertFC`.  The delay time is kept as the raw matched text; its numeric
value is only consulted by the busy-wait in `DELAY`, which is outside the
state modelled here. -/
inductive Instruction where
  | out (str : Str)
  | delay (timeStr : Str) (proportional force : Bool)
  | print (spec : PrintSpec)
  | pushParam (index : Nat)
  | setVar (name : Char)
  | pushVar (name : Char)
  | constant (value : Int)
  | strlen
  | paramInc
  | add | subtract | multiply | divide | modulo
  | band | bor | bxor | bnot
  | cmpEqual | cmpGreater | cmpLess | cmpAnd | cmpOr | cmpNot
  | tiFlowBeginIf | tiFlowThen | tiFlowElseIf | tiFlowEndIf
  | jumpZero (position : Nat)
  | jump (position : Nat)
  deriving DecidableEq, Repr

/-! ## Escape handling (`compiler.js` `handleEscapes`)

`handleEscapes` is a chain of global `String.replace` calls, applied to the
whole string one after the other.  Each pass below scans left to right,
substituting non-overlapping matches and never rescanning a replacement,
exactly like `String.prototype.replace` with a global regex. -/

/-- Named characters (kept out of character-literal syntax for clarity). -/
def qChar : Char := Char.ofNat 39   -- apostrophe
def bslash : Char := Char.ofNat 92  -- backslash
def escChar : Char := Char.ofNat 27 -- ESC
def lbrace : Char := Char.ofNat 123
def rbrace : Char := Char.ofNat 125

/-- Pass 1: `/\^(.)/g` — `^X` becomes control-X (`^?` is 0x7F).  The regex
dot does not match a line terminator. -/
def escCaret : Str → Str
  | [] => []
  | '^' :: c :: rest =>
      if c ≠ '\n' ∧ c ≠ '\r' then
        (if c = '?' then Char.ofNat 0x7F else Char.ofNat (Nat.land c.toNat 0x1F))
          :: escCaret rest
      else '^' :: escCaret (c :: rest)
  | c :: rest => c :: escCaret rest

/-- `parseInt(m, 8)` for a 1–3 digit decimal-digit string: value of the
longest octal-digit prefix; `NaN` (modelled as code 0 after
`String.fromCharCode`) if the first digit is 8 or 9. -/
def parseIntOct (m : Str) : Nat :=
  (m.takeWhile fun c => '0' ≤ c ∧ c ≤ '7').foldl (fun a c => a * 8 + (c.toNat - 48)) 0

/-- Pass 2: `/\\(\d{1,3})/g` — octal escapes (greedy up to three digits). -/
def escOctal : Str → Str
  | [] => []
  | [c] => [c]
  | [c, d1] =>
      if c = bslash ∧ d1.isDigit then [Char.ofNat (parseIntOct [d1])] else [c, d1]
  | c :: d1 :: d2 :: [] =>
      if c = bslash ∧ d1.isDigit ∧ d2.isDigit then
        [Char.ofNat (parseIntOct [d1, d2])]
      else if c = bslash ∧ d1.isDigit then
        Char.ofNat (parseIntOct [d1]) :: escOctal [d2]
      else c :: escOctal [d1, d2]
  | c :: d1 :: d2 :: d3 :: r =>
      if c = bslash ∧ d1.isDigit ∧ d2.isDigit ∧ d3.isDigit then
        Char.ofNat (parseIntOct [d1, d2, d3]) :: escOctal r
      else if c = bslash ∧ d1.isDigit ∧ d2.isDigit then
        Char.ofNat (parseIntOct [d1, d2]) :: escOctal (d3 :: r)
      else if c = bslash ∧ d1.isDigit then
        Char.ofNat (parseIntOct [d1]) :: escOctal (d2 :: d3 :: r)
      else c :: escOctal (d1 :: d2 :: d3 :: r)

/-- One generic pass: `/\\X/g → rep` for a single character `X`. -/
def escPair (target : Char) (rep : Str) : Str → Str
  | [] => []
  | [c] => [c]
  | c :: d :: rest =>
      if c = bslash ∧ d = target then rep ++ escPair target rep rest
      else c :: escPair target rep (d :: rest)

/-- Pass 3: `/\\[Ee]/g → ESC`. -/
def escE : Str → Str
  | [] => []
  | [c] => [c]
  | c :: d :: rest =>
      if c = bslash ∧ (d = 'E' ∨ d = 'e') then escChar :: escE rest
      else c :: escE (d :: rest)

/-- `handleEscapes` from `compiler.js`: the full chain of replacements, in
source order. -/
def handleEscapes (s : Str) : Str :=
  let s := escCaret s
  let s := escOctal s
  let s := escE s
  let s := escPair 'n' ['\r', '\n'] s
  let s := escPair 'l' ['\n'] s
  let s := escPair 'r' ['\r'] s
  let s := escPair 't' ['\t'] s
  let s := escPair 'b' [Char.ofNat 8] s
  let s := escPair 'f' [Char.ofNat 12] s
  let s := escPair 's' [' '] s
  let s := escPair '^' ['^'] s
  let s := escPair bslash [bslash] s
  let s := escPair ',' [','] s
  let s := escPair ':' [':'] s
  s

/-! ## The lexer (`compiler.js` `INSN_REGEX`, `matchAll` + `inverseMatch`)

The single global regex is rendered as a direct-style matcher.  At every
position the engine tries, in the regex's alternation order:
a `$<…>` delay, then `%` followed by one of {printf spec, `pN`,
`[Pg]<letter>`, character constant, `{N}` integer constant, single-char
instruction}.  Unmatched text between matches becomes literal segments
(`inverseMatch` + the index sort), in input order. -/

/-- The decisive capture groups of one regex match. -/
inductive RMatch where
  | delayM (time flags : Str)
  | printM (flags : Str) (width precision : Option Str) (format : Char)
  | paramM (digit : Char)
  | varM (op name : Char)
  | charM (c : Str)
  | intM (digits : Str)
  | otherM (c : Char)
  deriving DecidableEq, Repr

/-- `(?:\.[0-9])*`: pairs of dot-digit, greedy. -/
def takeDotDigits : Str → Str × Str
  | '.' :: c :: rest =>
      if c.isDigit then
        let (a, b) := takeDotDigits rest
        ('.' :: c :: a, b)
      else ([], '.' :: c :: rest)
  | r => ([], r)

/-- The delay-flag slots `(?:(?:(?<_df>[*\/])(?!\k<_df>))?){2}` followed by
the literal `>`: try two flags, then one, then none (the regex's greedy
backtracking order); each consumed flag's lookahead requires the next
character to differ from it.  Returns the flags and the match length of
flags-plus-`>`. -/
def matchDelayFlags (r : Str) : Option (Str × Nat) :=
  let isFlag : Char → Bool := fun c => c = '*' ∨ c = '/'
  match r with
  | c1 :: c2 :: '>' :: _ =>
      if isFlag c1 ∧ isFlag c2 ∧ c2 ≠ c1 then some ([c1, c2], 3)
      else if isFlag c1 ∧ c2 = '>' then some ([c1], 2)
      else if c1 = '>' then some ([], 1)
      else none
  | c1 :: '>' :: _ =>
      if isFlag c1 then some ([c1], 2) else if c1 = '>' then some ([], 1) else none
  | '>' :: _ => some ([], 1)
  | _ => none

/-- Match the delay alternative `\$\<time flags\>` at the start of `cs`;
returns the match and its length. -/
def matchDelay (cs : Str) : Option (RMatch × Nat) :=
  match cs with
  | '$' :: '<' :: rest =>
      let ds := rest.takeWhile Char.isDigit
      let r1 := rest.drop ds.length
      let (frac, r2) := takeDotDigits r1
      match matchDelayFlags r2 with
      | some (flags, k) =>
          some (.delayM (ds ++ frac) flags, 2 + ds.length + frac.length + k)
      | none => none
  | _ => none

/-- The printf flag characters that may follow the first one. -/
def isFlag2 (c : Char) : Bool := c = '-' ∨ c = '+' ∨ c = '#' ∨ c = ' '

/-- The flags loop `(?:(?<_pf2>[-+# ])(?!\k<_pf1>|\k<_pf2>))*`.  When the
optional first flag `_pf1` did not participate, its backreference matches
the empty string and the negative lookahead always fails, so the loop can
consume nothing.  Otherwise a character is consumed only when the character
after it differs both from `_pf1` and from itself. -/
def takeFlags2 (pf1 : Char) : Str → Str × Str
  | [] => ([], [])
  | [c] =>
      if isFlag2 c then ([c], []) else ([], [c])
  | c :: d :: rest =>
      if isFlag2 c ∧ d ≠ pf1 ∧ d ≠ c then
        let (a, b) := takeFlags2 pf1 (d :: rest)
        (c :: a, b)
      else ([], c :: d :: rest)

/-- Match the printf alternative after the `%`:
`(?<print_flags>…)(?:(?<print_width>[0-9]+)?(?:\.(?<print_precision>[0-9]+))?)(?<print_format>[cdoxXs])`.
Returns the match and the length consumed after the `%`. -/
def matchPrint (r : Str) : Option (RMatch × Nat) :=
  -- optional first flag from [:# ]
  let pf1? : Option Char :=
    match r with
    | c :: _ => if c = ':' ∨ c = '#' ∨ c = ' ' then some c else none
    | [] => none
  let (fl2, r1) :=
    match pf1? with
    | some f => takeFlags2 f (r.drop 1)
    | none => ([], r)
  let flags := (match pf1? with | some f => [f] | none => []) ++ fl2
  let ws := r1.takeWhile Char.isDigit
  let width? : Option Str := if ws = [] then none else some ws
  let r2 := r1.drop ws.length
  let (prec?, r3) : Option Str × Str :=
    match r2 with
    | '.' :: t =>
        let ps := t.takeWhile Char.isDigit
        if ps = [] then (none, r2) else (some ps, t.drop ps.length)
    | _ => (none, r2)
  match r3 with
  | f :: _ =>
      if f = 'c' ∨ f = 'd' ∨ f = 'o' ∨ f = 'x' ∨ f = 'X' ∨ f = 's' then
        some (.printM flags width? prec? f,
          flags.length + ws.length +
            (match prec? with | some ps => ps.length + 1 | none => 0) + 1)
      else none
  | [] => none

/-- Match the character-constant alternative
`\'(?<character>(?:\^.)|(?:\\(?:[\\\']|[^\\\']+))|[^\\\'])\'` after the `%`.
Returns the group and the length consumed after the `%`. -/
def matchCharConst (r : Str) : Option (RMatch × Nat) :=
  match r with
  | q :: rest =>
      if q ≠ qChar then none
      else
        -- first alternative: ^ followed by any char (not a line terminator)
        match rest with
        | '^' :: c :: q2 :: _ =>
          if c ≠ '\n' ∧ c ≠ '\r' ∧ q2 = qChar then some (.charM ['^', c], 4)
          else matchCharConstTail rest
        | _ => matchCharConstTail rest
  | [] => none
where
  /-- the backslash and single-character alternatives -/
  matchCharConstTail (rest : Str) : Option (RMatch × Nat) :=
    match rest with
    | b :: c :: t =>
        if b = bslash then
          if c = bslash ∨ c = qChar then
            match t with
            | q2 :: _ => if q2 = qChar then some (.charM [b, c], 4) else none
            | [] => none
          else
            -- `\\[^\\\']+` then the closing quote
            let run := (c :: t).takeWhile fun x => x ≠ bslash ∧ x ≠ qChar
            match (c :: t).drop run.length with
            | q2 :: _ =>
                if q2 = qChar ∧ run ≠ [] then
                  some (.charM (b :: run), run.length + 3)
                else none
            | [] => none
        else if b ≠ qChar ∧ c = qChar then some (.charM [b], 3)
        else none
    | _ => none

/-- Match one regex alternative at the start of `cs`; `none` means no match
starts here.  Returns the match and its total length (including the `%`
for the `%`-alternatives). -/
def tryMatch (cs : Str) : Option (RMatch × Nat) :=
  match matchDelay cs with
  | some m => some m
  | none =>
    match cs with
    | '%' :: rest =>
        (match matchPrint rest with
         | some (m, k) => some (m, k + 1)
         | none =>
           match rest with
           | 'p' :: d :: _ =>
               if d.isDigit then some (.paramM d, 3) else tryMatchRest rest
           | _ => tryMatchRest rest)
    | _ => none
where
  tryMatchRest (rest : Str) : Option (RMatch × Nat) :=
    match rest with
    | v :: l :: _ =>
        if (v = 'P' ∨ v = 'g') ∧ (l.isUpper ∨ l.isLower) then
          some (.varM v l, 3)
        else tryMatchRest2 rest
    | _ => tryMatchRest2 rest
  tryMatchRest2 (rest : Str) : Option (RMatch × Nat) :=
    match matchCharConst rest with
    | some (m, k) => some (m, k + 1)
    | none =>
      match rest with
      | b :: t =>
          if b = lbrace then
            let ds := t.takeWhile Char.isDigit
            match t.drop ds.length with
            | rb :: _ =>
                if rb = rbrace ∧ ds ≠ [] then some (.intM ds, ds.length + 3)
                else tryMatchOther rest
            | [] => tryMatchOther rest
          else tryMatchOther rest
      | [] => none
  tryMatchOther (rest : Str) : Option (RMatch × Nat) :=
    match rest with
    | c :: _ =>
        if c ∈ ("ilmAO?te;%+*/&|^=><!~-".data) then some (.otherM c, 2)
        else none
    | [] => none

/-- One scan step of `matchAll` interleaved with the unmatched segments
(`inverseMatch` + index sort): literal runs between matches are kept in
input order.  Fuel dominates the input length (each step consumes at least
one character). -/
def tokenizeAux : Nat → Str → Str → List (Sum Str RMatch)
  | _, lit, [] => if lit = [] then [] else [.inl lit.reverse]
  | 0, lit, rest => if lit.reverse ++ rest = [] then [] else [.inl (lit.reverse ++ rest)]
  | fuel + 1, lit, c :: rest =>
      match tryMatch (c :: rest) with
      | some (m, k) =>
          (if lit = [] then [] else [.inl lit.reverse]) ++
            .inr m :: tokenizeAux fuel [] ((c :: rest).drop k)
      | none => tokenizeAux fuel (c :: lit) rest

/-- The token stream of a capability string: regex matches and literal
segments, in input order. -/
def tokenizeStr (s : Str) : List (Sum Str RMatch) :=
  tokenizeAux (s.length + 1) [] s

/-! ## Instruction generation (`compile`'s main loop, `gen*` helpers) -/

/-- `Number(digits)` for a digit string (`Number("") = 0`). -/
def numOfDigits (ds : Str) : Nat :=
  ds.foldl (fun a c => a * 10 + (c.toNat - 48)) 0

/-- `genPrint`: width/precision parsing; a width starting with `0` sets
`zeroPad` and is stripped of the leading zero before conversion. -/
def genPrint (flags : Str) (width? precision? : Option Str) (fmt : Char) : PrintSpec :=
  let (zeroPad, w) :=
    match width? with
    | none => (false, 0)
    | some ds =>
        if ds.headD ' ' = '0' then (true, numOfDigits (ds.drop 1))
        else (false, numOfDigits ds)
  { format := fmt
    zeroPad := zeroPad
    width := w
    precision := (match precision? with | none => 0 | some ps => numOfDigits ps)
    alternateForm := '#' ∈ flags
    leftJustify := '-' ∈ flags
    positiveSignBlank := ' ' ∈ flags
    sign := '+' ∈ flags }

/-- `e.charCodeAt(0)` for a non-empty string. -/
def charCodeAt0 (e : Str) : Int :=
  (e.headD (Char.ofNat 0)).toNat

/-- The body of `compile`'s token loop: turn one match (or literal segment)
into a raw instruction.  The character-constant case throws a `TypeError`
when the escape resolves to more than one code point. -/
def genToken : Sum Str RMatch → Except JsError Instruction
  | .inl lit => .ok (.out (handleEscapes lit))
  | .inr (.delayM t f) => .ok (.delay t ('*' ∈ f) ('/' ∈ f))
  | .inr (.printM fl w p fmt) => .ok (.print (genPrint fl w p fmt))
  | .inr (.paramM d) => .ok (.pushParam (d.toNat - 48))
  | .inr (.varM op name) =>
      .ok (if op = 'P' then .setVar name else .pushVar name)
  | .inr (.charM c) =>
      let e := handleEscapes c
      if e.length > 1 then
        .error (.typeError ("invalid character instruction %" ++
          String.mk [qChar] ++ String.mk c ++ String.mk [qChar]))
      else .ok (.constant (charCodeAt0 e))
  | .inr (.intM ds) => .ok (.constant (numOfDigits ds))
  | .inr (.otherM c) =>
      .ok <|
        if c = '%' then .out ['%']
        else if c = 'l' then .strlen
        else if c = 'i' then .paramInc
        else if c = '+' then .add
        else if c = '-' then .subtract
        else if c = '*' then .multiply
        else if c = '/' then .divide
        else if c = 'm' then .modulo
        else if c = '&' then .band
        else if c = '|' then .bor
        else if c = '^' then .bxor
        else if c = '~' then .bnot
        else if c = '=' then .cmpEqual
        else if c = '>' then .cmpGreater
        else if c = '<' then .cmpLess
        else if c = 'A' then .cmpAnd
        else if c = 'O' then .cmpOr
        else if c = '!' then .cmpNot
        else if c = '?' then .tiFlowBeginIf
        else if c = 't' then .tiFlowThen
        else if c = 'e' then .tiFlowElseIf
        else .tiFlowEndIf

/-- The raw (pre-`convertFC`) instruction stream of a capability string. -/
def rawInstructions (s : Str) : Except JsError (List Instruction) :=
  (tokenizeStr s).mapM genToken

/-! ## Flow-control lowering (`compiler.js` `convertFC`)

`convertFC` returns either the bare instruction array (when the input runs
out without an `END_IF` — its caller inside `BEGIN_IF` treats that as a
parse error) or, on `END_IF`, a two-element array `[skip, result]`.  Both
shapes are arrays in JavaScript; they are modelled by `ConvertResult`.
The destructuring `const [skip, block] = convertFC(...)` followed by
`Array.isArray(block)` distinguishes exactly these two shapes. -/

inductive ConvertResult where
  | done (result : List Instruction)
  | pair (skip : Nat) (result : List Instruction)
  deriving DecidableEq, Repr

/-- Assign to the `position` field of a jump instruction (the only
instructions patched by `convertFC`). -/
def setPosition (i : Instruction) (p : Nat) : Instruction :=
  match i with
  | .jumpZero _ => .jumpZero p
  | .jump _ => .jump p
  | other => other

/-- The locals of `convertFC`'s loop. -/
structure FCState where
  result : List Instruction := []
  endJumpIndices : List Nat := []
  endJumpPos : List Nat := []
  chainJumpIndex : Option Nat := none
  chainJumpPos : Nat := 0

/-- `END_IF`: patch every queued end-jump with its accumulated offset. -/
def patchEndJumps (r : List Instruction) : List (Nat × Nat) → List Instruction
  | [] => r
  | (idx, pos) :: rest => patchEndJumps (r.set idx (setPosition (r.getD idx .tiFlowEndIf) pos)) rest

/-- The loop of `convertFC`.  `i` is the loop index into the slice passed
to this invocation; the fuel dominates the slice length (each step

consumes at least one element). -/
def convertFCGo : Nat → List Instruction → Nat → FCState → Except JsError ConvertResult
  | _, [], _, st => .ok (.done st.result)
  | 0, _ :: _, _, _ => .error (.parseError "unreachable: convertFC fuel")
  | fuel + 1, insn :: rest, i, st =>
    match insn with
    | .tiFlowBeginIf =>
        -- `const [skip, block] = convertFC(instructions.slice(i + 1))`
        match convertFCGo fuel rest 0 {} with
        | .error e => .error e
        | .ok (.done _) =>
            -- `block` is not an array: the recursive call fell off the end
            .error (.parseError "unexpected end of instructions")
        | .ok (.pair skip block) =>
            convertFCGo fuel (rest.drop skip) (i + skip + 1)
              { st with
                result := st.result ++ block
                chainJumpPos := st.chainJumpPos + block.length
                endJumpPos := st.endJumpPos.map (· + block.length) }
    | .tiFlowThen =>
        convertFCGo fuel rest (i + 1)
          { result := st.result ++ [.jumpZero 0]
            endJumpIndices := st.endJumpIndices
            endJumpPos := st.endJumpPos.map (· + 1)
            chainJumpIndex := some st.result.length
            chainJumpPos := 0 }
    | .tiFlowElseIf =>
        match st.chainJumpIndex with
        | none =>
            -- `result[undefined].position = …` throws in JavaScript
            .error (.typeError "cannot set position of undefined")
        | some k =>
            let r1 := st.result.set k
              (setPosition (st.result.getD k .tiFlowEndIf) (st.chainJumpPos + 1))
            convertFCGo fuel rest (i + 1)
              { result := r1 ++ [.jump 0]
                endJumpIndices := st.endJumpIndices ++ [r1.length]
                endJumpPos := st.endJumpPos.map (· + 1) ++ [0]
                chainJumpIndex := none
                chainJumpPos := st.chainJumpPos }
    | .tiFlowEndIf =>
        let r1 :=
          match st.chainJumpIndex with
          | some k =>
              st.result.set k (setPosition (st.result.getD k .tiFlowEndIf) st.chainJumpPos)
          | none => st.result
        let r2 := patchEndJumps r1 (st.endJumpIndices.zip st.endJumpPos)
        .ok (.pair (i + 1) r2)
    | _ =>
        convertFCGo fuel rest (i + 1)
          { st with
            result := st.result ++ [insn]
            chainJumpPos := st.chainJumpPos + 1
            endJumpPos := st.endJumpPos.map (· + 1) }

/-- `convertFC(instructions)` from `compiler.js`. -/
def convertFC (instructions : List Instruction) : Except JsError ConvertResult :=
  convertFCGo (instructions.length + 1) instructions 0 {}

/-- `compile(s)` from `compiler.js`: lex, generate raw instructions,
lower flow control.  Note that the `.pair` shape (a stray `END_IF`) is
returned as a *successful* result, exactly like the JavaScript function. -/
def compile (s : Str) : Except JsError ConvertResult := do
  let raw ← rawInstructions s
  convertFC raw

/-- Compile a Lean string literal. -/
def compileS (s : String) : Except JsError ConvertResult := compile s.data

/-! ## The runtime (`program.js` `Program` and `Terminal`)

Aliasing model.  `Program.reset` executes
`this.dynamicRegisters = Program.#regDefaults` and
`this.params = Program.#paramDefaults`; both right-hand sides are the
class-static objects created once at module load, so every `Program`'s
`dynamicRegisters`/`params` is a reference to the same two objects, at all
times (nothing in the sources ever assigns a fresh object to these
fields).  Likewise `new Terminal()` executes
`this.staticRegisters = Terminal.#staticRegDefaults`, so every `Terminal`
aliases the one static-register object.  These three module-level stores
are therefore modelled as one `World` value threaded through execution,
and `reset` — faithfully — does *not* restore their contents. -/

/-- The module-level mutable stores. -/
structure World where
  /-- contents of `Program.#regDefaults` (dynamic registers `a..z`) -/
  regDefaults : Char → Value
  /-- contents of `Program.#paramDefaults` (the nine parameter slots) -/
  paramDefaults : List Value
  /-- contents of `Terminal.#staticRegDefaults` (static registers `A..Z`) -/
  staticRegDefaults : Char → Value

/-- The stores as created at module load. -/
def initialWorld : World where
  regDefaults := fun _ => .vnull
  paramDefaults := List.replicate 9 (Value.vint 0)
  staticRegDefaults := fun _ => .vnull

/-- A `Terminal`: delay-policy flags.  (Its `staticRegisters` field is the
shared store in `World`; see the aliasing model above.) -/
structure Terminal where
  directOutput : Bool
  disableDelays : Bool

/-- `new Terminal()`: both flags start false. -/
def mkTerminal : Terminal := ⟨false, false⟩

/-- The per-`Program` instance state (`#code`, `maxUsedParam`, and the
fields set by `reset`).  The stack's top is the head of the list. -/
structure ProgState where
  code : List Instruction
  maxUsedParam : Nat
  stack : List Value
  programCounter : Nat
  output : Str
  affectedLines : JsNum
  executing : Bool
  done : Bool

/-- `typeof` of a stack value, as a string. -/
def jsTypeof : Value → String
  | .vnum _ => "number"
  | .vstr _ => "string"
  | .vnull => "object"
  | .vundefined => "undefined"

/-- `#pop()` (untyped). -/
def popV : List Value → Except JsError (Value × List Value)
  | [] => .error (.runtimeError "stack exhausted")
  | v :: rest => .ok (v, rest)

/-- `#pop("number")`. -/
def popNum (st : List Value) : Except JsError (JsNum × List Value) := do
  let (v, rest) ← popV st
  match v with
  | .vnum n => .ok (n, rest)
  | other => .error (.typeError ("invalid stack value. expected number, got " ++ jsTypeof other))

/-- `#pop("string")`. -/
def popStr (st : List Value) : Except JsError (Str × List Value) := do
  let (v, rest) ← popV st
  match v with
  | .vstr s => .ok (s, rest)
  | other => .error (.typeError ("invalid stack value. expected string, got " ++ jsTypeof other))

/-- `name === name.toLowerCase()` for a register name. -/
def jsIsLowerName (c : Char) : Bool :=
  (if c.isUpper then c.toLower else c) = c

/-- `v++` on a parameter slot: `ToNumber`, then add one. -/
def jsIncValue (v : Value) : Value :=
  .vnum (JsNum.add (jsToNumber v) (.fin 1))

/-- The result of one opcode handler: new store contents, new stack, new
output, and the amount the handler itself added to the program counter
(non-zero only for the jump instructions). -/
structure OpOut where
  world : World
  stack : List Value
  output : Str
  pcBump : Nat

/-- The dispatch table `#rt`: the effect of a single instruction on the
stores, the stack and the output.  `DELAY` busy-waits (and only when
`directOutput` is set); it never touches the modelled state.  The
`tiFlow*` markers have no handler: `execInstruction` throws
`TypeError("Instructions WIP")` for them. -/
def runOp (t : Terminal) (w : World) (p : ProgState) :
    Instruction → Except JsError OpOut
  | .out s => .ok ⟨w, p.stack, p.output ++ s, 0⟩
  | .delay _ _ _ => .ok ⟨w, p.stack, p.output, 0⟩
  | .print spec =>
      if spec.format = 'c' then do
        let (n, st) ← popNum p.stack
        .ok ⟨w, st, p.output ++ [jsFromCharCode n], 0⟩
      else if spec.format = 'd' then do
        let (n, st) ← popNum p.stack
        .ok ⟨w, st, p.output ++ fmtd spec n, 0⟩
      else if spec.format = 'o' then do
        let (n, st) ← popNum p.stack
        .ok ⟨w, st, p.output ++ fmto spec n, 0⟩
      else if spec.format = 'x' then do
        let (n, st) ← popNum p.stack
        .ok ⟨w, st, p.output ++ fmtx spec false n, 0⟩
      else if spec.format = 'X' then do
        let (n, st) ← popNum p.stack
        .ok ⟨w, st, p.output ++ fmtx spec true n, 0⟩
      else if spec.format = 's' then do
        let (s, st) ← popStr p.stack
        .ok ⟨w, st, p.output ++ fmts spec s, 0⟩
      else .ok ⟨w, p.stack, p.output, 0⟩
  | .pushParam i =>
      -- `params[insn.index - 1]`; index 0 reads `params[-1]` = undefined
      let v := if i = 0 then Value.vundefined else w.paramDefaults.getD (i - 1) .vundefined
      .ok ⟨w, v :: p.stack, p.output, 0⟩
  | .setVar name => do
      let (v, st) ← popV p.stack
      if jsIsLowerName name then
        .ok ⟨{ w with regDefaults := fun c => if c = name then v else w.regDefaults c },
          st, p.output, 0⟩
      else
        .ok ⟨{ w with staticRegDefaults := fun c => if c = name then v else w.staticRegDefaults c },
          st, p.output, 0⟩
  | .pushVar name =>
      let v := if jsIsLowerName name then w.regDefaults name else w.staticRegDefaults name
      .ok ⟨w, v :: p.stack, p.output, 0⟩
  | .constant v => .ok ⟨w, Value.vint v :: p.stack, p.output, 0⟩
  | .strlen => do
      -- `this.stack.push(this.#pop("string"))`
      let (s, st) ← popStr p.stack
      .ok ⟨w, Value.vstr s :: st, p.output, 0⟩
  | .paramInc =>
      let ps := w.paramDefaults
      let ps := ps.set 0 (jsIncValue (ps.getD 0 .vundefined))
      let ps := ps.set 1 (jsIncValue (ps.getD 1 .vundefined))
      .ok ⟨{ w with paramDefaults := ps }, p.stack, p.output, 0⟩
  | .add => do
      let (op1, st) ← popNum p.stack
      let (op2, st) ← popNum st
      .ok ⟨w, .vnum (JsNum.add op2 op1) :: st, p.output, 0⟩
  | .subtract => do
      let (op1, st) ← popNum p.stack
      let (op2, st) ← popNum st
      .ok ⟨w, .vnum (JsNum.sub op2 op1) :: st, p.output, 0⟩
  | .multiply => do
      let (op1, st) ← popNum p.stack
      let (op2, st) ← popNum st
      .ok ⟨w, .vnum (JsNum.mul op2 op1) :: st, p.output, 0⟩
  | .divide => do
      let (op1, st) ← popNum p.stack
      let (op2, st) ← popNum st
      .ok ⟨w, .vnum (JsNum.floorDiv op2 op1) :: st, p.output, 0⟩
  | .modulo => do
      let (op1, st) ← popNum p.stack
      let (op2, st) ← popNum st
      .ok ⟨w, .vnum (JsNum.rem op2 op1) :: st, p.output, 0⟩
  | .band => do
      let (op1, st) ← popNum p.stack
      let (op2, st) ← popNum st
      .ok ⟨w, .vnum (JsNum.band op2 op1) :: st, p.output, 0⟩
  | .bor => do
      let (op1, st) ← popNum p.stack
      let (op2, st) ← popNum st
      .ok ⟨w, .vnum (JsNum.bor op2 op1) :: st, p.output, 0⟩
  | .bxor => do
      let (op1, st) ← popNum p.stack
      let (op2, st) ← popNum st
      .ok ⟨w, .vnum (JsNum.bxor op2 op1) :: st, p.output, 0⟩
  | .bnot => do
      let (n, st) ← popNum p.stack
      .ok ⟨w, .vnum (JsNum.bnot n) :: st, p.output, 0⟩
  | .cmpEqual => do
      let (op1, st) ← popV p.stack
      let (a, st) ← popV st
      .ok ⟨w, Value.vint (if jsStrictEq a op1 then 1 else 0) :: st, p.output, 0⟩
  | .cmpGreater => do
      let (op1, st) ← popV p.stack
      let (a, st) ← popV st
      .ok ⟨w, Value.vint (if jsGtV a op1 then 1 else 0) :: st, p.output, 0⟩
  | .cmpLess => do
      let (op1, st) ← popV p.stack
      let (a, st) ← popV st
      .ok ⟨w, Value.vint (if jsLtV a op1 then 1 else 0) :: st, p.output, 0⟩
  | .cmpAnd => do
      -- `Number(a && op1)`
      let (op1, st) ← popV p.stack
      let (a, st) ← popV st
      .ok ⟨w, .vnum (jsToNumber (if jsTruthy a then op1 else a)) :: st, p.output, 0⟩
  | .cmpOr => do
      let (op1, st) ← popV p.stack
      let (a, st) ← popV st
      .ok ⟨w, .vnum (jsToNumber (if jsTruthy a then a else op1)) :: st, p.output, 0⟩
  | .cmpNot => do
      let (a, st) ← popV p.stack
      .ok ⟨w, Value.vint (if jsTruthy a then 0 else 1) :: st, p.output, 0⟩
  | .jumpZero pos => do
      let (v, st) ← popV p.stack
      if v = Value.vint 0 ∨ v = .vstr [] then .ok ⟨w, st, p.output, pos⟩
      else .ok ⟨w, st, p.output, 0⟩
  | .jump pos => .ok ⟨w, p.stack, p.output, pos⟩
  | .tiFlowBeginIf | .tiFlowThen | .tiFlowElseIf | .tiFlowEndIf =>
      .error (.typeError "Instructions WIP")

/-- `execInstruction(insn)`: run the handler, then `++programCounter` plus
any jump offset; set `done` when the counter reaches the code length. -/
def execInsn (t : Terminal) (w : World) (p : ProgState) (insn : Instruction) :
    Except JsError (World × ProgState) :=
  if p.done then .ok (w, p)
  else do
    let r ← runOp t w p insn
    let pc := p.programCounter + r.pcBump + 1
    .ok (r.world,
      { p with
        stack := r.stack
        output := r.output
        programCounter := pc
        done := pc ≥ p.code.length })

/-- The `while (!this.done)` loop of `exec`.  Each iteration increases the
program counter by at least one, so `code.length + 1` fuel dominates. -/
def runLoop (t : Terminal) : Nat → World → ProgState →
    Except JsError (World × ProgState)
  | 0, _, _ => .error (.runtimeError "unreachable: exec loop fuel")
  | fuel + 1, w, p =>
      if p.done then .ok (w, p)
      else
        match p.code.get? p.programCounter with
        | none => .error (.typeError "cannot read opcode of undefined")
        | some insn => do
            let (w', p') ← execInsn t w p insn
            runLoop t fuel w' p'

/-- `begin(params…)`. -/
def begin (w : World) (p : ProgState) (args : List Value) :
    Except JsError (World × ProgState) :=
  if p.executing then .ok (w, p)
  else if args.any (fun v => jsTypeof v ≠ "number" ∧ jsTypeof v ≠ "string") then
    .error (.typeError "attempted to pass parameter of invalid type")
  else if args.length < p.maxUsedParam then
    .error (.rangeError ("not enough parameters (" ++ toString args.length ++
      ") for program using " ++ toString p.maxUsedParam ++ " parameters"))
  else
    -- `this.params.splice(0, parm.length, ...parm)` on the shared array
    .ok ({ w with paramDefaults := args ++ w.paramDefaults.drop args.length },
      { p with executing := true })

/-- `reset()`: restores the per-instance fields; the shared register and
parameter stores are only re-aliased, never cleared (see the aliasing
model above). -/
def resetProg (p : ProgState) : ProgState :=
  { p with
    affectedLines := .fin 1
    programCounter := 0
    stack := []
    output := []
    executing := false
    done := false }

/-- `exec(aff, params…)`: check `aff`, `begin`, run to completion, grab the
output, `reset`. -/
def exec (t : Terminal) (w : World) (p : ProgState) (aff : Value)
    (args : List Value) : Except JsError (Str × World × ProgState) := do
  match aff with
  | .vnum n =>
      if JsNum.lt n (.fin 1) then
        .error (.typeError "first argument must be a number >= 1")
      else do
        let p := { p with affectedLines := n }
        let (w, p) ← begin w p args
        let (w, p) ← runLoop t (p.code.length + 1) w p
        .ok (p.output, w, resetProg p)
  | _ => .error (.typeError "first argument must be a number >= 1")

/-- `new Program(termctx, code)` followed by the `instructions` setter:
compile the capability string, freeze the code, compute `maxUsedParam`.
When `compile` hands back the `[skip, result]` pair shape, the setter's
loop reads `.opcode` of a number and throws. -/
def mkProgram (src : Str) : Except JsError ProgState := do
  match ← compile src with
  | .done code =>
      .ok { code := code
            maxUsedParam := code.foldl
              (fun m i => match i with
                | .pushParam k => if m < k then k else m
                | _ => m) 0
            stack := []
            programCounter := 0
            output := []
            affectedLines := .fin 1
            executing := false
            done := false }
  | .pair _ _ => .error (.typeError "cannot read opcode of a non-instruction")

/-- Compile a capability string into a fresh `Program` and `exec` it:
returns the emitted bytes and the world after the run. -/
def execCap (t : Terminal) (w : World) (src : String) (aff : Int)
    (args : List Value) : Except JsError (Str × World) := do
  let p ← mkProgram src.data
  let (out, w, _) ← exec t w p (Value.vint aff) args
  .ok (out, w)

/-! ## The terminfo binary decoder (`terminfo.js` `Entry`)

The decoder reads a byte list front to back; the read position is threaded
explicitly.  `#strictReadBytes(0)` in the source returns the *number* `0`
rather than a byte array (`if (!data.length) return 0`); the places where
that number can flow are modelled by `Sum Nat (List Nat)` — `inl 0` is the
number, and the operations JavaScript would then crash on throw the
corresponding `TypeError`. -/

/-- Little-endian signed 16-bit read (`DataView.getInt16(off, true)`). -/
def getInt16LE (bs : List Nat) (off : Nat) : Int :=
  let v : Nat := bs.getD off 0 + 256 * bs.getD (off + 1) 0
  if v < 32768 then (v : Int) else (v : Int) - 65536

/-- Little-endian signed 32-bit read (`DataView.getInt32(off, true)`). -/
def getInt32LE (bs : List Nat) (off : Nat) : Int :=
  let v : Nat := bs.getD off 0 + 256 * bs.getD (off + 1) 0 +
    65536 * bs.getD (off + 2) 0 + 16777216 * bs.getD (off + 3) 0
  if v < 2 ^ 31 then (v : Int) else (v : Int) - 2 ^ 32

/-- Read a number of width `numWidth` (2 or 4) at `off`. -/
def getNumLE (numWidth : Nat) (bs : List Nat) (off : Nat) : Int :=
  if numWidth = 4 then getInt32LE bs off else getInt16LE bs off

/-- `TextDecoder().decode`: modelled byte-wise (all strings decoded by the
claims are ASCII; multi-byte UTF-8 sequences are out of scope and affect
only the identity of decoded names, never the presence or sign of
capability values). -/
def textDecode (bs : List Nat) : String :=
  String.mk (bs.map Char.ofNat)

/-- `TypedArray.indexOf(target, from)`: `-1` when absent; a negative
`from` counts from the end. -/
def jsIndexOf (bs : List Nat) (target : Nat) (from_ : Int) : Int :=
  let start : Nat := if from_ < 0 then ((bs.length : Int) + from_).toNat else from_.toNat
  match (bs.drop start).findIdx? (· = target) with
  | some j => (start + j : Nat)
  | none => -1

/-- `TypedArray.slice(start, end)` / `subarray`: negative indices count
from the end; out-of-range indices clamp. -/
def jsSlice (bs : List Nat) (start endI : Int) : List Nat :=
  let norm : Int → Nat := fun x =>
    if x < 0 then ((bs.length : Int) + x).toNat else min x.toNat bs.length
  (bs.take (norm endI)).drop (norm start)

/-- Has the read position reached the end of the file? (`#fileEnd`). -/
def fileEnd (d : List Nat) (pos : Nat) : Bool := pos ≥ d.length

/-- `#strictReadBytes(nbytes)`.  Returns `inl 0` (the number zero) for a
zero-length read; a negative length is `new Uint8Array(-n)`, a
`RangeError`; a short read is the `FormatError`. -/
def strictReadBytes (d : List Nat) (pos : Nat) (n : Int) :
    Except JsError (Sum Nat (List Nat) × Nat) :=
  if n < 0 then .error (.rangeError "invalid typed array length")
  else if n = 0 then .ok (.inl 0, pos)
  else if pos + n.toNat ≤ d.length then
    .ok (.inr ((d.drop pos).take n.toNat), pos + n.toNat)
  else .error (.formatError ("less than " ++ toString n ++ " bytes read"))

/-- `seekSync(delta, Current)`: may move past the end, never below 0. -/
def seekCur (pos : Nat) (delta : Int) : Except JsError Nat :=
  if (pos : Int) + delta < 0 then .error (.typeError "invalid seek offset")
  else .ok ((pos : Int) + delta).toNat

/-- The basic header (`Header`); the magic is validated by the `Magic`
enum, whose lookup failure is the built-in `TypeError` thrown by
`enum.js`. -/
structure Header where
  magic : Int
  sizeNames : Int
  nCapBool : Int
  nCapNum : Int
  nCapStr : Int
  sizeStr : Int
  deriving DecidableEq, Repr

/-- The extended header (`ExtendedHeader`). -/
structure ExtendedHeader where
  nCapBool : Int
  nCapNum : Int
  nCapStr : Int
  nStr : Int
  sizeStr : Int
  deriving DecidableEq, Repr

/-- `TermName`: `|`-separated name list. -/
structure TermName where
  brief : String
  detailed : Option String
  synonyms : Option (List String)
  deriving DecidableEq, Repr

/-- Split a character list at a separator. -/
def splitPipe (s : Str) : List Str :=
  s.foldr (fun c acc =>
    match acc with
    | cur :: done => if c = '|' then [] :: cur :: done else (c :: cur) :: done
    | [] => [[c]]) [[]]

/-- The `TermName` constructor. -/
def mkTermName (s : String) : TermName :=
  let parts := splitPipe s.data
  { brief := String.mk (parts.headD [])
    detailed := if parts.length < 2 then none else some (String.mk (parts.getLastD []))
    synonyms := if parts.length < 3 then none
                else some ((parts.drop 1).dropLast.map String.mk) }

/-- Modelled from the spec: `caps.js` (not under `src/`) holds the static
ordered tables of standard boolean/numeric/string capability names,
indexed by position in the binary.  The names are modelled as an injective
indexed family per table (the claims do not depend on the concrete names);
the finite size of the real tables — beyond which the enum lookup in
`caps.js` would throw — is not modelled. -/
def capsBoolKey (i : Nat) : String := String.mk (List.replicate (i + 1) 'b')

/-- Modelled from the spec: standard numeric capability names (see
`capsBoolKey`). -/
def capsNumKey (i : Nat) : String := String.mk (List.replicate (i + 1) 'm')

/-- Modelled from the spec: standard string capability names (see
`capsBoolKey`). -/
def capsStrKey (i : Nat) : String := String.mk (List.replicate (i + 1) 's')

/-- JavaScript object property assignment `obj[k] = v` on a map used as a
dictionary: overwrite in place or append. -/
def jsSet {α : Type} (m : List (String × α)) (k : String) (v : α) :
    List (String × α) :=
  if (m.lookup k).isSome then m.map (fun p => if p.1 = k then (k, v) else p)
  else m ++ [(k, v)]

/-- `#readBooleans`'s loop: byte `i` non-zero sets `booleans[name] = true`. -/
def boolsLoop (bs : List Nat) : Nat → Nat → List (String × Bool) → List (String × Bool)
  | 0, _, m => m
  | k + 1, i, m =>
      boolsLoop bs k (i + 1) (if bs.getD i 0 ≠ 0 then jsSet m (capsBoolKey i) true else m)

/-- `#readNumbers`'s loop: negative values are absent. -/
def numsLoop (numWidth : Nat) (bs : List Nat) :
    Nat → Nat → List (String × Int) → List (String × Int)
  | 0, _, m => m
  | k + 1, i, m =>
      let cap := getNumLE numWidth bs (i * numWidth)
      numsLoop numWidth bs k (i + 1) (if cap < 0 then m else jsSet m (capsNumKey i) cap)

/-- `#readStrings`'s loop: negative offsets are absent; otherwise the
NUL-terminated string at the offset.  A zero-length table is the number
`0` whose `.slice` throws as soon as a present offset needs it. -/
def strsLoop (offs : List Nat) (table : Sum Nat (List Nat)) :
    Nat → Nat → List (String × String) → Except JsError (List (String × String))
  | 0, _, m => .ok m
  | k + 1, i, m =>
      let off := getInt16LE offs (i * 2)
      if off < 0 then strsLoop offs table k (i + 1) m
      else
        match table with
        | .inl _ => .error (.typeError "data.slice is not a function")
        | .inr tb =>
            strsLoop offs table k (i + 1)
              (jsSet m (capsStrKey i) (textDecode (jsSlice tb off (jsIndexOf tb 0 off))))

/-- `#readExtNums`'s loop: *every* value is pushed, negative or not. -/
def extNumsLoop (numWidth : Nat) (bs : List Nat) : Nat → Nat → List Int → List Int
  | 0, _, acc => acc
  | k + 1, i, acc => extNumsLoop numWidth bs k (i + 1) (acc ++ [getNumLE numWidth bs (i * numWidth)])

/-- Read the 16-bit offsets in positions `[i, i + count)` of the extended
offset table, also counting the negative ("absent") ones. -/
def offsRangeLoop (offBytes : List Nat) : Nat → Nat → List Int × Nat
  | 0, _ => ([], 0)
  | k + 1, i =>
      let off := getInt16LE offBytes (i * 2)
      let (rest, nneg) := offsRangeLoop offBytes k (i + 1)
      (off :: rest, (if off < 0 then 1 else 0) + nneg)

/-- The repeat-until-stable loop of `#readExtStrings`: read `nStr`
offsets, then as long as the last pass saw `nMissing > 0` new negative
offsets, read `nMissing` further offsets.  Each pass with `nMissing > 0`
consumes at least two more bytes of the file, so `d.length + 1` fuel
dominates.  Returns the offsets, the total number of negatives, and the
new position. -/
def extMissingLoop (d : List Nat) : Nat → Nat → List Nat → List Int → Nat →
    Nat → Nat → Except JsError (List Int × Nat × Nat)
  | 0, _, _, _, _, _, _ => .error (.formatError "unreachable: extended offsets fuel")
  | fuel + 1, pos, offBytes, offsets, missingTotal, from_, to_ => do
      let (newOffs, nMissing) := offsRangeLoop offBytes (to_ - from_) from_
      let offsets := offsets ++ newOffs
      let missingTotal := missingTotal + nMissing
      if nMissing = 0 then .ok (offsets, missingTotal, pos)
      else do
        let (r, pos) ← strictReadBytes d pos (nMissing * 2)
        match r with
        | .inl _ => .error (.typeError "unreachable: a positive read returned a number")
        | .inr more =>
            extMissingLoop d fuel pos (offBytes ++ more) offsets missingTotal to_ (to_ + nMissing)

/-- The value-string loop of `#readExtStrings`: negative offsets push the
placeholder `"ABSENT"`; otherwise decode the NUL-terminated string and
remember the NUL position (`capsEnd`). -/
def extValsLoop (offsets : List Int) (table : Sum Nat (List Nat)) :
    Nat → Nat → Int → List String → Except JsError (List String × Int)
  | 0, _, capsEnd, acc => .ok (acc, capsEnd)
  | k + 1, i, capsEnd, acc =>
      let off := offsets.getD i 0
      if off < 0 then extValsLoop offsets table k (i + 1) capsEnd (acc ++ ["ABSENT"])
      else
        match table with
        | .inl _ => .error (.typeError "data.indexOf is not a function")
        | .inr tb =>
            let ce := jsIndexOf tb 0 off
            extValsLoop offsets table k (i + 1) ce (acc ++ [textDecode (jsSlice tb off ce)])

/-- `#extStrOffsets[j]` as observed by `#readExtNames`: a read outside the
array yields `undefined`, which every use site (the `< 0` test, `indexOf`'s
`fromIndex`, `subarray`'s start) treats exactly like `0`. -/
def getOffI (offsets : List Int) (j : Int) : Int :=
  if j < 0 then 0 else offsets.getD j.toNat 0

/-- Access the extended string table: `undefined` (never read) or the
number `0` (zero-length read) throw on the first use. -/
def tableOrThrow : Option (Sum Nat (List Nat)) → Except JsError (List Nat)
  | none => .error (.typeError "cannot read indexOf of undefined")
  | some (.inl _) => .error (.typeError "data.indexOf is not a function")
  | some (.inr tb) => .ok tb

/-- The extended-boolean binding loop of `#readExtNames`:
`booleans[name] = !!extBool[i]` — the name is *always* bound, to the
truthiness of the byte. -/
def extBoolsNamesLoop (offsets : List Int) (extBool : List Nat)
    (table : Option (Sum Nat (List Nat))) (base : Int) :
    Nat → Nat → List (String × Bool) → Except JsError (List (String × Bool))
  | 0, _, m => .ok m
  | k + 1, i, m => do
      let off := getOffI offsets (base + i)
      let tb ← tableOrThrow table
      let endI := jsIndexOf tb 0 off
      let name := textDecode (jsSlice tb off endI)
      extBoolsNamesLoop offsets extBool table base k (i + 1)
        (jsSet m name (extBool.getD i 0 ≠ 0))

/-- The extended-number binding loop of `#readExtNames`:
`numbers[name] = extNum[i]` — the raw value is bound unconditionally,
with no negative-absent check. -/
def extNumsNamesLoop (offsets : List Int) (extNum : List Int)
    (table : Option (Sum Nat (List Nat))) (base : Int) :
    Nat → Nat → List (String × Int) → Except JsError (List (String × Int))
  | 0, _, m => .ok m
  | k + 1, i, m => do
      let off := getOffI offsets (base + i)
      let tb ← tableOrThrow table
      let endI := jsIndexOf tb 0 off
      let name := textDecode (jsSlice tb off endI)
      extNumsNamesLoop offsets extNum table base k (i + 1)
        (jsSet m name (extNum.getD i 0))

/-- The extended-string binding loop of `#readExtNames`: slots whose value
offset was negative are skipped; the rest bind the decoded value. -/
def extStrsNamesLoop (offsets : List Int) (extStr : List String)
    (table : Option (Sum Nat (List Nat))) (base : Int) :
    Nat → Nat → List (String × String) → Except JsError (List (String × String))
  | 0, _, m => .ok m
  | k + 1, i, m =>
      if getOffI offsets i < 0 then extStrsNamesLoop offsets extStr table base k (i + 1) m
      else do
        let off := getOffI offsets (base + i)
        let tb ← tableOrThrow table
        let endI := jsIndexOf tb 0 off
        let name := textDecode (jsSlice tb off endI)
        extStrsNamesLoop offsets extStr table base k (i + 1)
          (jsSet m name (extStr.getD i ""))

/-- A fully decoded terminfo entry. -/
structure Entry where
  header : Header
  names : TermName
  booleans : List (String × Bool)
  numbers : List (String × Int)
  strings : List (String × String)
  extHeader : Option ExtendedHeader
  deriving DecidableEq, Repr

/-- `is32bit()`. -/
def Entry.is32bit (e : Entry) : Bool := e.header.magic = 0x021E

/-- `isExtended()`. -/
def Entry.isExtended (e : Entry) : Bool := e.extHeader.isSome

/-- `#readHeader`: read twelve bytes, validate the magic through the
`Magic` enum (`enum.js` throws its `TypeError` on an unknown value), and
build the `Header`. -/
def readHeader (d : List Nat) : Except JsError (Header × Nat) := do
  let (r, pos) ← strictReadBytes d 0 12
  let hb ← match r with
    | .inl _ => Except.error (.typeError "cannot create DataView of a number")
    | .inr bs => Except.ok bs
  let magic := getInt16LE hb 0
  if magic ≠ 0x011A ∧ magic ≠ 0x021E then
    Except.error (.typeError ("invalid enum value: " ++ toString magic))
  else
    Except.ok
      ({ magic := magic
         sizeNames := getInt16LE hb 2
         nCapBool := getInt16LE hb 4
         nCapNum := getInt16LE hb 6
         nCapStr := getInt16LE hb 8
         sizeStr := getInt16LE hb 10 }, pos)

/-- The `Entry` constructor: parse header, names, booleans, numbers,
strings, then — iff bytes remain — the extended section. -/
def decodeEntry (d : List Nat) : Except JsError Entry := do
  -- #readHeader
  let (h, pos) ← readHeader d
  let numWidth : Nat := if h.magic = 0x021E then 4 else 2
  -- #readTermNames
  let (r, pos) ← strictReadBytes d pos h.sizeNames
  let names ← match r with
    | .inl _ => Except.error (.typeError "data.subarray is not a function")
    | .inr bs => Except.ok (mkTermName (textDecode bs.dropLast))
  -- #readBooleans
  let padB := Int.tmod (h.sizeNames + h.nCapBool) 2
  let (booleans, pos) ←
    if h.nCapBool = 0 then do
      let pos ← seekCur pos padB
      Except.ok (([] : List (String × Bool)), pos)
    else do
      let (r, pos) ← strictReadBytes d pos (h.nCapBool + padB)
      match r with
      | .inl _ => Except.ok ([], pos)  -- indexing the number 0 yields undefined: falsy
      | .inr bs => Except.ok (boolsLoop bs h.nCapBool.toNat 0 [], pos)
  -- #readNumbers
  let (numbers, pos) ←
    if h.nCapNum = 0 then Except.ok (([] : List (String × Int)), pos)
    else do
      let (r, pos) ← strictReadBytes d pos (h.nCapNum * numWidth)
      match r with
      | .inl _ => Except.error (.typeError "cannot create DataView of a number")
      | .inr bs => Except.ok (numsLoop numWidth bs h.nCapNum.toNat 0 [], pos)
  -- #readStrings
  let padS := Int.tmod h.sizeStr 2
  let (strings, pos) ←
    if h.nCapStr = 0 then do
      let pos ← seekCur pos padS
      Except.ok (([] : List (String × String)), pos)
    else do
      let (ro, pos) ← strictReadBytes d pos (h.nCapStr * 2)
      let offs ← match ro with
        | .inl _ => Except.error (.typeError "cannot create DataView of a number")
        | .inr bs => Except.ok bs
      let (rt, pos) ← strictReadBytes d pos h.sizeStr
      let m ← strsLoop offs rt h.nCapStr.toNat 0 []
      -- the conditional pad skip: only if more data follows
      let pos := if padS ≠ 0 ∧ ¬fileEnd d pos then pos + 1 else pos
      Except.ok (m, pos)
  if fileEnd d pos then
    Except.ok { header := h, names := names, booleans := booleans,
                numbers := numbers, strings := strings, extHeader := none }
  else do
  -- #readExtHeader
  let (r, pos) ← strictReadBytes d pos 10
  let eb ← match r with
    | .inl _ => Except.error (.typeError "cannot create DataView of a number")
    | .inr bs => Except.ok bs
  let eh : ExtendedHeader :=
    { nCapBool := getInt16LE eb 0
      nCapNum := getInt16LE eb 2
      nCapStr := getInt16LE eb 4
      nStr := getInt16LE eb 6
      sizeStr := getInt16LE eb 8 }
  -- #readExtBools
  let padEB := Int.tmod eh.nCapBool 2
  let (extBool, pos) ←
    if eh.nCapBool = 0 then do
      let pos ← seekCur pos padEB
      Except.ok (([] : List Nat), pos)
    else do
      let (r, pos) ← strictReadBytes d pos (eh.nCapBool + padEB)
      match r with
      | .inl _ => Except.error (.typeError "data.subarray is not a function")
      | .inr bs => Except.ok (bs.take eh.nCapBool.toNat, pos)
  -- #readExtNums
  let (extNum, pos) ←
    if eh.nCapNum = 0 then Except.ok (([] : List Int), pos)
    else do
      let (r, pos) ← strictReadBytes d pos (eh.nCapNum * numWidth)
      match r with
      | .inl _ => Except.error (.typeError "cannot create DataView of a number")
      | .inr bs => Except.ok (extNumsLoop numWidth bs eh.nCapNum.toNat 0 [], pos)
  -- #readExtStrings
  let (extStr, offsets, missingTotal, table, pos) ←
    if eh.nStr = 0 then
      Except.ok (([] : List String), ([] : List Int), (0 : Nat),
        (none : Option (Sum Nat (List Nat))), pos)
    else do
      let (ro, pos) ← strictReadBytes d pos (eh.nStr * 2)
      let offBytes ← match ro with
        | .inl _ => Except.error (.typeError "cannot create DataView of a number")
        | .inr bs => Except.ok bs
      let (offsets, missingTotal, pos) ←
        extMissingLoop d (d.length + 1) pos offBytes [] 0 0 eh.nStr.toNat
      let (rt, pos) ← strictReadBytes d pos eh.sizeStr
      let (extStr, capsEnd) ← extValsLoop offsets rt eh.nCapStr.toNat 0 0 []
      -- rebase the name offsets past the last value string's terminator
      let offsets := offsets.mapIdx fun idx v =>
        if eh.nCapStr ≤ (idx : Int) ∧ (idx : Int) < eh.nStr + (missingTotal : Int) then
          v + capsEnd + 1
        else v
      Except.ok (extStr, offsets, missingTotal, some rt, pos)
  -- #readExtNames
  let booleans ← extBoolsNamesLoop offsets extBool table eh.nCapStr eh.nCapBool.toNat 0 booleans
  let numbers ← extNumsNamesLoop offsets extNum table (eh.nCapStr + eh.nCapBool)
    eh.nCapNum.toNat 0 numbers
  let strings ← extStrsNamesLoop offsets extStr table (eh.nCapStr + eh.nCapBool + eh.nCapNum)
    eh.nCapStr.toNat 0 strings
  Except.ok { header := h, names := names, booleans := booleans,
              numbers := numbers, strings := strings, extHeader := some eh }

/-! ## Concrete inputs used by the claims -/

/-- A minimal terminfo file with an extended section holding one extended
numeric capability named `n` whose raw value is −1 (bytes `FF FF`).
Layout: basic header (magic 0x011A, `sizeNames` 2, no basic caps), names
`"x\0"`, extended header (1 number, 1 present offset, 3 table bytes), the
number, one name offset, and the table `"\0n\0"`. -/
def c1File : List Nat :=
  [0x1A, 0x01, 2, 0, 0, 0, 0, 0, 0, 0, 0, 0] ++
  [120, 0] ++
  [0, 0, 1, 0, 0, 0, 1, 0, 3, 0] ++
  [0xFF, 0xFF] ++
  [0, 0] ++
  [0, 110, 0]

/-- A twelve-byte file whose first two bytes are `1A 02` (little-endian
0x021A = 538): long enough for the header read to succeed, so the magic
check is reached. -/
def c5File : List Nat := [0x1A, 0x02, 2, 0, 0, 0, 0, 0, 0, 0, 0, 0]

/-- A minimal terminfo file with an extended section holding one extended
boolean capability named `b` whose byte is 0. -/
def c8File : List Nat :=
  [0x1A, 0x01, 2, 0, 0, 0, 0, 0, 0, 0, 0, 0] ++
  [120, 0] ++
  [1, 0, 0, 0, 0, 0, 1, 0, 3, 0] ++
  [0, 0] ++
  [0, 0] ++
  [0, 98, 0]

/-- A fresh `ProgState` with the given code (used for single-instruction
runs). -/
def progWith (code : List Instruction) : ProgState :=
  { code := code, maxUsedParam := 0, stack := [], programCounter := 0,
    output := [], affectedLines := .fin 1, executing := false, done := false }

/-! ## Claim theorems (part 1: direct evaluations) -/

/-- **C2** (code bug evaluated).  The claim says a STRLEN instruction pops
a string from the stack top and pushes the string's *length*.  The handler
`#rt[Opcode.STRLEN]` is `this.stack.push(this.#pop("string"))`: it pushes
the popped string itself back, leaving the stack unchanged.  In
particular, on stack top `"ab"` the result is the string `"ab"` again,
not the number 2. -/
theorem strlen_pushes_string_not_length :
    (∀ (t : Terminal) (w : World) (p : ProgState) (s : Str) (rest : List Value),
      runOp t w { p with stack := .vstr s :: rest } .strlen =
        .ok ⟨w, .vstr s :: rest, p.output, 0⟩) ∧
    (runOp mkTerminal initialWorld
        { progWith [.strlen] with stack := [.vstr "ab".data] } .strlen).map OpOut.stack =
      .ok [Value.vstr "ab".data] ∧
    decide ((runOp mkTerminal initialWorld
        { progWith [.strlen] with stack := [.vstr "ab".data] } .strlen).map OpOut.stack =
      .ok [Value.vint 2]) = false :=
  ⟨fun _ _ _ _ _ => rfl, rfl, rfl⟩

/-- **C3** (code bug evaluated).  The claim says every `exec` starts from
a fully reset state: dynamic registers `a..z` null and parameter slots 0,
regardless of earlier `SET_VAR`/`PARAM_INC` effects from any program.
Because `reset()` assigns the class-static `#regDefaults`/`#paramDefaults`
objects themselves (not copies), the mutated contents survive: after
executing `"%{5}%Pa"` once, register `a` holds 5, and a *different*
program `"%ga%d"` then prints `"5"` (the claim would require `a` to be
null, making the `%d` pop fail with a TypeError); after executing `"%i"`,
the first two parameter slots hold 1, not 0. -/
theorem exec_does_not_reset_shared_state :
    ((execCap mkTerminal initialWorld "%{5}%Pa" 1 []).map
        (fun r => r.2.regDefaults 'a') = .ok (Value.vint 5)) ∧
    (((do
        let (_, w1) ← execCap mkTerminal initialWorld "%{5}%Pa" 1 []
        execCap mkTerminal w1 "%ga%d" 1 [] :
          Except JsError (Str × World)).map (fun r => String.mk r.1)) =
      .ok "5") ∧
    ((execCap mkTerminal initialWorld "%i" 1 []).map
        (fun r => (r.2.paramDefaults.getD 0 .vundefined,
                   r.2.paramDefaults.getD 1 .vundefined)) =
      .ok (Value.vint 1, Value.vint 1)) :=
  ⟨rfl, rfl, rfl⟩

/-- **C4** (confirmed).  Compiling `"\E[%i%p1%d;%p2%dH"` and executing it
with `affectedLines` 1 and parameters (5, 10) yields exactly
`ESC [ 6 ; 1 1 H`. -/
theorem cm_example_exec :
    (execCap mkTerminal initialWorld "\\E[%i%p1%d;%p2%dH" 1
        [.vint 5, .vint 10]).map (fun r => String.mk r.1) =
      .ok "\x1B[6;11H" :=
  rfl

/-- **C7** (confirmed).  `"%p1%#o"` with parameter 8 yields `"010"`, and
`"%p1%#.3o"` with parameter 8 also yields `"010"` (not `"0010"`): the
precision padding already supplies the leading zero, and
`fmtNumericCommon` cancels the octal alternate-form `0` prefix. -/
theorem octal_alternate_form_cancellation :
    ((execCap mkTerminal initialWorld "%p1%#o" 1 [.vint 8]).map
        (fun r => String.mk r.1) = .ok "010") ∧
    ((execCap mkTerminal initialWorld "%p1%#.3o" 1 [.vint 8]).map
        (fun r => String.mk r.1) = .ok "010") ∧
    fmto { format := 'o', alternateForm := true, precision := 3 } (.fin 8) =
      "010".data :=
  ⟨rfl, rfl, rfl⟩

/-- **C9** (counterexample).  The claim says `compile` fails with a Parse
error on a stray `END_IF` marker (`"%;"`).  It does not fail at all: the
`NOTE to self` check is missing, and `convertFC`'s `[i + 1, result]` pair
is returned as a successful result. -/
theorem compile_stray_endif_no_error :
    compileS "%;" = .ok (.pair 1 []) ∧ (compileS "%;").isOk = true :=
  ⟨rfl, rfl⟩

/-- **C9** (amended).  `compile` fails with
`Parse("unexpected end of instructions")` on an unterminated if-block; a
stray `END_IF` does *not* raise an error (it returns `convertFC`'s
`[skip, result]` pair as a successful value); and a character constant
whose escape resolves to a multi-code-point string fails with a built-in
*TypeError* (`"invalid character instruction %'\n'"`), not a Parse
error. -/
theorem compile_malformed_inputs :
    compileS "%?" = .error (.parseError "unexpected end of instructions") ∧
    compileS "%;" = .ok (.pair 1 []) ∧
    compile (['%', qChar, bslash, 'n', qChar]) =
      .error (.typeError ("invalid character instruction %" ++
        String.mk [qChar, bslash, 'n', qChar])) :=
  ⟨rfl, rfl, rfl⟩

/-- **C10** (confirmed).  Every `Terminal` constructed by `new Terminal()`
aliases the single class-static `A..Z` register object, so a `SET_VAR` of
`A` executed by a program of one terminal is observed by `PUSH_VAR` in a
program of *another* terminal: running `"%{65}%PA"` against `t1` and then
`"%gA%c"` against `t2` prints `"A"`, and the shared store holds 65. -/
theorem static_registers_shared_across_terminals :
    ∀ t1 t2 : Terminal, t1 = mkTerminal → t2 = mkTerminal →
      (((do
          let (_, w1) ← execCap t1 initialWorld "%{65}%PA" 1 []
          execCap t2 w1 "%gA%c" 1 [] :
            Except JsError (Str × World)).map (fun r => String.mk r.1)) =
        .ok "A") ∧
      ((execCap t1 initialWorld "%{65}%PA" 1 []).map
          (fun r => r.2.staticRegDefaults 'A') = .ok (Value.vint 65)) := by
  rintro _ _ rfl rfl
  exact ⟨rfl, rfl⟩

/-- **C10** (witness). -/
theorem static_registers_shared_across_terminals_witness :
    mkTerminal = mkTerminal ∧
    ((((do
        let (_, w1) ← execCap mkTerminal initialWorld "%{65}%PA" 1 []
        execCap mkTerminal w1 "%gA%c" 1 [] :
          Except JsError (Str × World)).map (fun r => String.mk r.1)) =
      .ok "A") ∧
    ((execCap mkTerminal initialWorld "%{65}%PA" 1 []).map
        (fun r => r.2.staticRegDefaults 'A') = .ok (Value.vint 65))) :=
  ⟨rfl, static_registers_shared_across_terminals mkTerminal mkTerminal rfl rfl⟩

/-- **C1** (counterexample).  The claim says a capability with a negative
raw value never appears in an `Entry`'s `numbers`/`strings` mapping.
Decoding `c1File` succeeds, and its `numbers` mapping contains the
extended capability `n` with raw value −1: `#readExtNums` keeps negative
values and `#readExtNames` binds them with no negative-absent check. -/
theorem negative_extended_number_appears :
    (decodeEntry c1File).map (fun e => e.numbers.lookup "n") = .ok (some (-1)) ∧
    (decodeEntry c1File).map (fun e => e.numbers) = .ok [("n", -1)] :=
  ⟨rfl, rfl⟩

/-- **C5** (counterexample).  The claim says a magic of 0x021A produces
`Format("bad magic")`.  Decoding does fail, but with the built-in
`TypeError("invalid enum value: 538")` thrown by the `Magic` enum lookup
in `enum.js` — not with a Format error. -/
theorem bad_magic_raises_enum_type_error :
    decodeEntry c5File = .error (.typeError "invalid enum value: 538") ∧
    decide (decodeEntry c5File = .error (.formatError "bad magic")) = false :=
  ⟨rfl, rfl⟩

/-- **C8** (counterexample).  The claim says a boolean capability is
absent iff its byte is zero, so every present name maps to true.  The
extended-name binder executes `booleans[name] = !!extBool[i]`
unconditionally: decoding `c8File`, whose single extended boolean `b` has
byte 0, yields a `booleans` mapping in which `b` is *present* with value
`false`. -/
theorem zero_extended_boolean_present_false :
    (decodeEntry c8File).map (fun e => e.booleans.lookup "b") = .ok (some false) ∧
    (decodeEntry c8File).map (fun e => e.booleans) = .ok [("b", false)] :=
  ⟨rfl, rfl⟩

/-! ## Lemmas about the mapping operations -/

/-- The overwrite map of `jsSet` leaves other keys' lookups unchanged. -/
theorem lookup_map_upsert_ne {α : Type} (t : List (String × α)) (k k' : String)
    (v : α) (h : k' ≠ k) :
    (t.map (fun p => if p.1 = k then (k, v) else p)).lookup k' = t.lookup k' := by
  induction t with
  | nil => simp
  | cons p t ih =>
      obtain ⟨a, b⟩ := p
      by_cases hp : a = k
      · subst hp
        have hbk : (k' == a) = false := beq_eq_false_iff_ne.mpr h
        simp [List.lookup_cons, hbk, ih]
      · have hif : (if (a, b).1 = k then (k, v) else (a, b)) = (a, b) := by simp [hp]
        simp only [List.map_cons, hif, List.lookup_cons, ih]

/-- The overwrite map of `jsSet` rewrites the stored value of a present key. -/
theorem lookup_map_upsert_self {α : Type} (t : List (String × α)) (k : String)
    (v : α) (hsome : (t.lookup k).isSome = true) :
    (t.map (fun p => if p.1 = k then (k, v) else p)).lookup k = some v := by
  induction t with
  | nil => simp at hsome
  | cons p t ih =>
      obtain ⟨a, b⟩ := p
      by_cases hp : a = k
      · subst hp
        simp [List.lookup_cons]
      · have hif : (if (a, b).1 = k then (k, v) else (a, b)) = (a, b) := by simp [hp]
        have hbk : (k == a) = false := beq_eq_false_iff_ne.mpr (Ne.symm hp)
        simp only [List.lookup_cons, hbk] at hsome
        simp only [List.map_cons, hif, List.lookup_cons, hbk]
        exact ih hsome

theorem lookup_append_single_ne {α : Type} (t : List (String × α)) (k k' : String)
    (v : α) (h : k' ≠ k) : (t ++ [(k, v)]).lookup k' = t.lookup k' := by
  have hbk : (k' == k) = false := beq_eq_false_iff_ne.mpr h
  rw [List.lookup_append]
  cases hl : t.lookup k'
  · simp [List.lookup_cons, hbk]
  · rfl

theorem lookup_append_single_self {α : Type} (t : List (String × α)) (k : String)
    (v : α) (hnone : t.lookup k = none) : (t ++ [(k, v)]).lookup k = some v := by
  rw [List.lookup_append, hnone]
  simp

/-- `jsSet m k v` then looking up `k` yields `v`. -/
theorem jsSet_lookup_self {α : Type} (m : List (String × α)) (k : String) (v : α) :
    (jsSet m k v).lookup k = some v := by
  unfold jsSet
  split
  · exact lookup_map_upsert_self m k v (by assumption)
  · rename_i h
    exact lookup_append_single_self m k v (by
      cases hl : m.lookup k
      · rfl
      · exact absurd (by simp [hl]) h)

/-- `jsSet m k v` leaves every other key's lookup unchanged. -/
theorem jsSet_lookup_ne {α : Type} (m : List (String × α)) (k k' : String) (v : α)
    (h : k' ≠ k) : (jsSet m k v).lookup k' = m.lookup k' := by
  unfold jsSet
  split
  · exact lookup_map_upsert_ne m k k' v h
  · exact lookup_append_single_ne m k k' v h

/-- Every value reachable by lookup after `jsSet` is the new value or an
old one. -/
theorem jsSet_forall {α : Type} {P : α → Prop} (m : List (String × α)) (k : String)
    (v : α) (hm : ∀ k' v', m.lookup k' = some v' → P v') (hv : P v) :
    ∀ k' v', (jsSet m k v).lookup k' = some v' → P v' := by
  intro k' v' hl
  by_cases hk : k' = k
  · subst hk
    rw [jsSet_lookup_self] at hl
    cases hl
    exact hv
  · rw [jsSet_lookup_ne _ _ _ _ hk] at hl
    exact hm _ _ hl

theorem capsBoolKey_inj {i j : Nat} (h : capsBoolKey i = capsBoolKey j) : i = j := by
  have := congrArg String.length h
  simpa [capsBoolKey, String.length] using this

theorem capsStrKey_inj {i j : Nat} (h : capsStrKey i = capsStrKey j) : i = j := by
  have := congrArg String.length h
  simpa [capsStrKey, String.length] using this

/-! ## Lemmas about the decoder loops -/

theorem numsLoop_nonneg (w : Nat) (bs : List Nat) :
    ∀ (n i : Nat) (m : List (String × Int)),
      (∀ k v, m.lookup k = some v → 0 ≤ v) →
      ∀ k v, (numsLoop w bs n i m).lookup k = some v → 0 ≤ v := by
  intro n
  induction n with
  | zero =>
      intro i m hm k v h
      exact hm k v (by simpa [numsLoop] using h)
  | succ n ih =>
      intro i m hm k v h
      rw [numsLoop] at h
      split at h
      · exact ih _ _ hm k v h
      · rename_i hneg
        exact ih _ _ (jsSet_forall m _ _ hm (by omega)) k v h

theorem boolsLoop_true (bs : List Nat) :
    ∀ (n i : Nat) (m : List (String × Bool)),
      (∀ k v, m.lookup k = some v → v = true) →
      ∀ k v, (boolsLoop bs n i m).lookup k = some v → v = true := by
  intro n
  induction n with
  | zero =>
      intro i m hm k v h
      exact hm k v (by simpa [boolsLoop] using h)
  | succ n ih =>
      intro i m hm k v h
      rw [boolsLoop] at h
      split at h
      · exact ih _ _ (jsSet_forall m _ _ hm rfl) k v h
      · exact ih _ _ hm k v h

/-- Keys not named by any remaining index keep their lookup. -/
theorem boolsLoop_preserve (bs : List Nat) (key : String) :
    ∀ (n i0 : Nat) (m : List (String × Bool)),
      (∀ j, i0 ≤ j → j < i0 + n → capsBoolKey j ≠ key) →
      (boolsLoop bs n i0 m).lookup key = m.lookup key := by
  intro n
  induction n with
  | zero => intro i0 m _; simp [boolsLoop]
  | succ n ih =>
      intro i0 m hkeys
      rw [boolsLoop]
      split
      · rw [ih (i0 + 1) _ (fun j h1 h2 => hkeys j (by omega) (by omega))]
        exact jsSet_lookup_ne m _ key true
          (fun h => hkeys i0 (le_refl _) (by omega) h.symm)
      · exact ih (i0 + 1) m (fun j h1 h2 => hkeys j (by omega) (by omega))

/-- In the range being read, a standard boolean is present (with value
true) iff its byte is non-zero. -/
theorem boolsLoop_spec (bs : List Nat) (i : Nat) :
    ∀ (n i0 : Nat) (m : List (String × Bool)),
      m.lookup (capsBoolKey i) = none → i0 ≤ i → i < i0 + n →
      ((boolsLoop bs n i0 m).lookup (capsBoolKey i) = some true ↔ bs.getD i 0 ≠ 0) := by
  intro n
  induction n with
  | zero => intro i0 m _ h1 h2; omega
  | succ n ih =>
      intro i0 m hnone h1 h2
      rcases Nat.eq_or_lt_of_le h1 with heq | hlt
      · subst heq
        rw [boolsLoop]
        split
        · rename_i hbyte
          have hpres :
              ∀ j, i0 + 1 ≤ j → j < i0 + 1 + n → capsBoolKey j ≠ capsBoolKey i0 :=
            fun j hj1 _ hj => by have := capsBoolKey_inj hj; omega
          rw [boolsLoop_preserve bs _ n (i0 + 1) _ hpres,
            jsSet_lookup_self m (capsBoolKey i0) true]
          simpa using hbyte
        · rename_i hbyte
          have hpres :
              ∀ j, i0 + 1 ≤ j → j < i0 + 1 + n → capsBoolKey j ≠ capsBoolKey i0 :=
            fun j hj1 _ hj => by have := capsBoolKey_inj hj; omega
          rw [boolsLoop_preserve bs _ n (i0 + 1) _ hpres, hnone]
          simpa using hbyte
      · rw [boolsLoop]
        have hne : capsBoolKey i ≠ capsBoolKey i0 :=
          fun h => by have := capsBoolKey_inj h; omega
        split
        · exact ih (i0 + 1)
            (jsSet m (capsBoolKey i0) true)
            (by rw [jsSet_lookup_ne m _ _ true hne]; exact hnone)
            (by omega) (by omega)
        · exact ih (i0 + 1) m hnone (by omega) (by omega)

/-- A string slot with a negative offset stays absent through the string
loop. -/
theorem strsLoop_absent (offs : List Nat) (table : Sum Nat (List Nat)) (i : Nat) :
    ∀ (n i0 : Nat) (m res : List (String × String)),
      m.lookup (capsStrKey i) = none →
      (i0 ≤ i → i < i0 + n → getInt16LE offs (i * 2) < 0) →
      strsLoop offs table n i0 m = .ok res →
      res.lookup (capsStrKey i) = none := by
  intro n
  induction n with
  | zero =>
      intro i0 m res hnone _ hrun
      simp only [strsLoop, Except.ok.injEq] at hrun
      exact hrun ▸ hnone
  | succ n ih =>
      intro i0 m res hnone hneg hrun
      rw [strsLoop.eq_def] at hrun
      simp only [] at hrun
      split at hrun
      · exact ih (i0 + 1) m res hnone (fun h1 h2 => hneg (by omega) (by omega)) hrun
      · split at hrun
        · exact absurd hrun (by simp)
        · rename_i hoff _ tb
          by_cases heq : i = i0
          · subst heq
            exact absurd (hneg (le_refl _) (by omega)) hoff
          · have hne : capsStrKey i ≠ capsStrKey i0 :=
              fun h => heq (capsStrKey_inj h)
            exact ih (i0 + 1) _ res
              (by rw [jsSet_lookup_ne _ _ _ _ hne]; exact hnone)
              (fun h1 h2 => hneg (by omega) (by omega)) hrun

/-- The extended-string binder skips every slot whose value offset is
negative: if all are negative it binds nothing. -/
theorem extStrsNamesLoop_all_absent (offsets : List Int) (extStr : List String)
    (table : Option (Sum Nat (List Nat))) (base : Int) :
    ∀ (n i0 : Nat) (m : List (String × String)),
      (∀ i, i0 ≤ i → i < i0 + n → getOffI offsets i < 0) →
      extStrsNamesLoop offsets extStr table base n i0 m = .ok m := by
  intro n
  induction n with
  | zero => intro i0 m _; rfl
  | succ n ih =>
      intro i0 m hneg
      rw [extStrsNamesLoop]
      rw [if_pos (hneg i0 (le_refl _) (by omega))]
      exact ih (i0 + 1) m (fun i h1 h2 => hneg i (by omega) (by omega))

/-! ## Claim theorems (part 2: amended decoder invariants) -/

/-- **C1** (amended).  Negative raw values never appear via the *basic*
section: every value bound by `#readNumbers`'s loop is non-negative, and a
basic string slot whose offset is negative stays absent.  The extended
string binder likewise skips every slot whose value offset is negative.
Extended *numeric* capabilities however are bound to their raw value
unconditionally: decoding `c1File` puts the extended number `n` into the
`numbers` mapping with value −1. -/
theorem negative_absent_basic_but_extended_numbers_kept :
    (∀ (w : Nat) (bs : List Nat) (n : Nat) (k : String) (v : Int),
      (numsLoop w bs n 0 []).lookup k = some v → 0 ≤ v) ∧
    (∀ (offs : List Nat) (table : Sum Nat (List Nat)) (n i : Nat)
        (res : List (String × String)),
      i < n → getInt16LE offs (i * 2) < 0 →
      strsLoop offs table n 0 [] = .ok res → res.lookup (capsStrKey i) = none) ∧
    (∀ (offsets : List Int) (extStr : List String)
        (table : Option (Sum Nat (List Nat))) (base : Int) (n : Nat)
        (m : List (String × String)),
      (∀ i, i < n → getOffI offsets i < 0) →
      extStrsNamesLoop offsets extStr table base n 0 m = .ok m) ∧
    (decodeEntry c1File).map (fun e => e.numbers.lookup "n") = .ok (some (-1)) := by
  refine ⟨?_, ?_, ?_, rfl⟩
  · intro w bs n k v h
    exact numsLoop_nonneg w bs n 0 [] (by simp) k v h
  · intro offs table n i res hi hneg hrun
    exact strsLoop_absent offs table i n 0 [] res rfl (fun _ _ => hneg) hrun
  · intro offsets extStr table base n m hneg
    exact extStrsNamesLoop_all_absent offsets extStr table base n 0 m
      (fun i _ h2 => hneg i (by omega))

/-- **C1** (witness): the amended invariants applied at concrete inputs —
a basic number block holding the value 7 (bound, non-negative) and a
basic string block whose only offset is −1 (absent). -/
theorem negative_absent_basic_witness :
    ((numsLoop 2 [7, 0] 1 0 []).lookup (capsNumKey 0) = some 7 ∧ (0 : Int) ≤ 7) ∧
    (strsLoop [0xFF, 0xFF] (.inr [0]) 1 0 [] = .ok [] ∧
      ([] : List (String × String)).lookup (capsStrKey 0) = none) :=
  ⟨⟨rfl, negative_absent_basic_but_extended_numbers_kept.1 2 [7, 0] 1 (capsNumKey 0) 7 rfl⟩,
   ⟨rfl, negative_absent_basic_but_extended_numbers_kept.2.1 [0xFF, 0xFF] (.inr [0]) 1 0 []
      (by omega) (by decide) rfl⟩⟩

/-- **C8** (amended).  For the *standard* boolean block the claim holds:
every value bound by `#readBooleans`'s loop is `true`, and a standard
boolean is present iff its byte is non-zero.  An *extended* boolean is
always bound — to the truthiness of its byte — so a zero byte yields an
entry that is present with value `false` (`c8File`). -/
theorem standard_booleans_iff_nonzero_but_extended_always_bound :
    (∀ (bs : List Nat) (n : Nat) (k : String) (v : Bool),
      (boolsLoop bs n 0 []).lookup k = some v → v = true) ∧
    (∀ (bs : List Nat) (n i : Nat), i < n →
      ((boolsLoop bs n 0 []).lookup (capsBoolKey i) = some true ↔ bs.getD i 0 ≠ 0)) ∧
    (decodeEntry c8File).map (fun e => e.booleans.lookup "b") = .ok (some false) := by
  refine ⟨?_, ?_, rfl⟩
  · intro bs n k v h
    exact boolsLoop_true bs n 0 [] (by simp) k v h
  · intro bs n i hi
    exact boolsLoop_spec bs i n 0 [] (by simp) (Nat.zero_le _) (by omega)

/-- **C8** (witness): the amended invariants applied at the byte block
`[1, 0]` — index 0 present and true, index 1 absent. -/
theorem standard_booleans_iff_nonzero_witness :
    (0 < 2 ∧ ((boolsLoop [1, 0] 2 0 []).lookup (capsBoolKey 0) = some true ↔
      ([1, 0] : List Nat).getD 0 0 ≠ 0)) ∧
    (1 < 2 ∧ ((boolsLoop [1, 0] 2 0 []).lookup (capsBoolKey 1) = some true ↔
      ([1, 0] : List Nat).getD 1 0 ≠ 0)) :=
  ⟨⟨by omega, standard_booleans_iff_nonzero_but_extended_always_bound.2.1 [1, 0] 2 0 (by omega)⟩,
   ⟨by omega, standard_booleans_iff_nonzero_but_extended_always_bound.2.1 [1, 0] 2 1 (by omega)⟩⟩

theorem getD_take_lt {α : Type} (l : List α) (i n : Nat) (d0 : α) (h : i < n) :
    (l.take n).getD i d0 = l.getD i d0 := by
  simp [List.getD_eq_getElem?_getD, List.getElem?_take_of_lt h]

/-- **C5** (amended).  Decoding any file of at least 12 bytes whose magic
(the first little-endian signed 16-bit integer) is neither 0x011A nor
0x021E fails — but with the built-in `TypeError("invalid enum value: …")`
thrown by the `Magic` enum lookup in `enum.js`, not with
`Format("bad magic")`. -/
theorem decode_bad_magic (d : List Nat) (h12 : 12 ≤ d.length)
    (hm1 : getInt16LE d 0 ≠ 0x011A) (hm2 : getInt16LE d 0 ≠ 0x021E) :
    decodeEntry d =
      .error (.typeError ("invalid enum value: " ++ toString (getInt16LE d 0))) := by
  have hread : strictReadBytes d 0 12 = .ok (.inr (d.take 12), 12) := by
    unfold strictReadBytes
    rw [if_neg (by omega), if_neg (by omega), if_pos (by simpa using h12)]
    simp
  have hmag : getInt16LE (d.take 12) 0 = getInt16LE d 0 := by
    unfold getInt16LE
    rw [getD_take_lt d 0 12 0 (by omega), getD_take_lt d 1 12 0 (by omega)]
  have hhdr : readHeader d =
      .error (.typeError ("invalid enum value: " ++ toString (getInt16LE d 0))) := by
    unfold readHeader
    rw [hread]
    simp only [bind, Except.bind, hmag]
    rw [if_pos ⟨hm1, hm2⟩]
  unfold decodeEntry
  rw [hhdr]
  rfl

/-- **C5** (witness): the amended statement applied to the concrete file
whose first bytes are `1A 02` (magic 538). -/
theorem decode_bad_magic_witness :
    (12 ≤ c5File.length ∧ getInt16LE c5File 0 ≠ 0x011A ∧ getInt16LE c5File 0 ≠ 0x021E) ∧
    decodeEntry c5File =
      .error (.typeError ("invalid enum value: " ++ toString (getInt16LE c5File 0))) :=
  ⟨⟨by decide, by decide, by decide⟩,
   decode_bad_magic c5File (by decide) (by decide) (by decide)⟩

/-! ## Jump-target correctness of the compiler (claim C6) -/

/-- An instruction that is not a resolved jump. -/
def notJumpInsn : Instruction → Prop
  | .jump _ => False
  | .jumpZero _ => False
  | _ => True

/-- Every jump in `l` lands at an index ≤ `n` after `pc ← pc + position + 1`. -/
def jumpsLE (l : List Instruction) (n : Nat) : Prop :=
  ∀ k p, (l[k]? = some (.jump p) ∨ l[k]? = some (.jumpZero p)) → k + p + 1 ≤ n

/-- The instruction list inside either shape of a `convertFC` result. -/
def resultCode : ConvertResult → List Instruction
  | .done res => res
  | .pair _ res => res

theorem jumpsLE_mono {l : List Instruction} {n n' : Nat} (h : jumpsLE l n)
    (hn : n ≤ n') : jumpsLE l n' :=
  fun k p hk => le_trans (h k p hk) hn

theorem jumpsLE_nil : jumpsLE [] 0 := by
  intro k p hk
  rcases hk with hk | hk <;> simp at hk

theorem jumpsLE_append {l1 l2 : List Instruction} (h1 : jumpsLE l1 l1.length)
    (h2 : jumpsLE l2 l2.length) : jumpsLE (l1 ++ l2) (l1.length + l2.length) := by
  intro k p hk
  by_cases hlt : k < l1.length
  · have : l1[k]? = some (.jump p) ∨ l1[k]? = some (.jumpZero p) := by
      rcases hk with hk | hk <;> rw [List.getElem?_append, if_pos hlt] at hk <;>
        [exact Or.inl hk; exact Or.inr hk]
    have := h1 k p this
    omega
  · have hge : l1.length ≤ k := by omega
    have : l2[k - l1.length]? = some (.jump p) ∨ l2[k - l1.length]? = some (.jumpZero p) := by
      rcases hk with hk | hk <;> rw [List.getElem?_append_right hge] at hk <;>
        [exact Or.inl hk; exact Or.inr hk]
    have := h2 _ p this
    omega

theorem jumpsLE_single {x : Instruction} (hx : notJumpInsn x) : jumpsLE [x] 1 := by
  intro k p hk
  match k, hk with
  | 0, hk =>
      rcases hk with hk | hk <;> simp at hk <;> subst hk <;> simp [notJumpInsn] at hx
  | n + 1, hk => rcases hk with hk | hk <;> simp at hk

theorem jumpsLE_single_jump {p0 : Nat} (h : p0 = 0) :
    jumpsLE [.jump p0] 1 ∧ jumpsLE [.jumpZero p0] 1 := by
  subst h
  constructor <;> intro k p hk <;>
    match k, hk with
    | 0, hk =>
        rcases hk with hk | hk <;> simp_all
    | n + 1, hk => rcases hk with hk | hk <;> simp at hk

/-- Setting a jump's position to one that lands within `n` preserves
`jumpsLE · n`. -/
theorem jumpsLE_set {l : List Instruction} {n k p0 : Nat} {x : Instruction}
    (h : jumpsLE l n) (hk : k + p0 + 1 ≤ n) :
    jumpsLE (l.set k (setPosition x p0)) n := by
  intro k' p hk'
  by_cases hkk : k = k'
  · subst hkk
    by_cases hlen : k < l.length
    · have hget : (l.set k (setPosition x p0))[k]? = some (setPosition x p0) := by
        rw [List.getElem?_set, if_pos rfl, if_pos hlen]
      rcases hk' with hk' | hk' <;> rw [hget] at hk' <;>
        cases hx : x <;> simp [setPosition, hx] at hk' <;> omega
    · have hget : (l.set k (setPosition x p0))[k]? = none := by
        rw [List.getElem?_set, if_pos rfl, if_neg hlen]
      rcases hk' with hk' | hk' <;> rw [hget] at hk' <;> exact absurd hk' (by simp)
  · have hget : (l.set k (setPosition x p0))[k']? = l[k']? := by
      rw [List.getElem?_set, if_neg hkk]
    rcases hk' with hk' | hk' <;> rw [hget] at hk' <;>
      [exact h k' p (Or.inl hk'); exact h k' p (Or.inr hk')]

theorem patchEndJumps_length (pairs : List (Nat × Nat)) :
    ∀ r : List Instruction, (patchEndJumps r pairs).length = r.length := by
  induction pairs with
  | nil => intro r; rfl
  | cons q t ih =>
      intro r
      rw [patchEndJumps, ih, List.length_set]

theorem patchEndJumps_jumpsLE {n : Nat} (pairs : List (Nat × Nat)) :
    ∀ r : List Instruction, jumpsLE r n →
      (∀ q ∈ pairs, q.1 + 1 + q.2 = n) → jumpsLE (patchEndJumps r pairs) n := by
  induction pairs with
  | nil => intro r h _; exact h
  | cons q t ih =>
      intro r h hq
      rw [patchEndJumps]
      exact ih _ (jumpsLE_set h (by have := hq q (List.mem_cons_self q t); omega))
        (fun q' hq' => hq q' (List.mem_cons_of_mem _ hq'))

/-- The loop invariant of `convertFC`. -/
def FCInv (st : FCState) : Prop :=
  st.endJumpIndices.length = st.endJumpPos.length ∧
  (∀ q ∈ st.endJumpIndices.zip st.endJumpPos, q.1 + 1 + q.2 = st.result.length) ∧
  (∀ k, st.chainJumpIndex = some k → k + 1 + st.chainJumpPos = st.result.length) ∧
  jumpsLE st.result st.result.length

theorem FCInv_init : FCInv {} := by
  refine ⟨rfl, ?_, ?_, ?_⟩
  · intro q hq
    simp [FCState.endJumpIndices, FCState.endJumpPos] at hq
  · intro k hk
    simp [FCState.chainJumpIndex] at hk
  · intro k p hk
    rcases hk with hk | hk <;> simp [FCState.result] at hk

/-- Appending a block whose jumps are internally in range (the default
step and the `BEGIN_IF` splice) preserves the invariant. -/
theorem FCInv_appendBlock {st : FCState} {block : List Instruction}
    (hinv : FCInv st) (hblock : jumpsLE block block.length) :
    FCInv { st with
            result := st.result ++ block
            chainJumpPos := st.chainJumpPos + block.length
            endJumpPos := st.endJumpPos.map (· + block.length) } := by
  obtain ⟨hlen, hpairs, hchain, hjumps⟩ := hinv
  refine ⟨by simpa using hlen, ?_, ?_, ?_⟩
  · intro q hq
    simp only [List.zip_map_right] at hq
    obtain ⟨⟨a, b⟩, hab, rfl⟩ := List.mem_map.mp hq
    have := hpairs _ hab
    simp only [List.length_append]
    simp only [Prod.map, id_eq]
    omega
  · intro k hk
    have := hchain k hk
    simp only [List.length_append]
    omega
  · simpa using jumpsLE_append hjumps hblock

theorem jumpsLE_append_le {l1 l2 : List Instruction} {n : Nat}
    (h1 : jumpsLE l1 n) (h2 : jumpsLE l2 l2.length)
    (hn : l1.length + l2.length ≤ n) : jumpsLE (l1 ++ l2) n := by
  intro k p hk
  by_cases hlt : k < l1.length
  · have : l1[k]? = some (.jump p) ∨ l1[k]? = some (.jumpZero p) := by
      rcases hk with hk | hk <;> rw [List.getElem?_append, if_pos hlt] at hk <;>
        [exact Or.inl hk; exact Or.inr hk]
    exact h1 k p this
  · have hge : l1.length ≤ k := by omega
    have : l2[k - l1.length]? = some (.jump p) ∨ l2[k - l1.length]? = some (.jumpZero p) := by
      rcases hk with hk | hk <;> rw [List.getElem?_append_right hge] at hk <;>
        [exact Or.inl hk; exact Or.inr hk]
    have := h2 _ p this
    omega

/-- The `THEN` step: push an (unpatched) `JUMP_ZERO` and open a chain. -/
theorem FCInv_then {st : FCState} (hinv : FCInv st) :
    FCInv { result := st.result ++ [.jumpZero 0]
            endJumpIndices := st.endJumpIndices
            endJumpPos := st.endJumpPos.map (· + 1)
            chainJumpIndex := some st.result.length
            chainJumpPos := 0 } := by
  obtain ⟨hlen, hpairs, _, hjumps⟩ := hinv
  refine ⟨by simpa using hlen, ?_, ?_, ?_⟩
  · intro q hq
    simp only [List.zip_map_right] at hq
    obtain ⟨⟨a, b⟩, hab, rfl⟩ := List.mem_map.mp hq
    have := hpairs _ hab
    simp only [List.length_append, List.length_singleton, Prod.map, id_eq]
    omega
  · intro k hk
    cases hk
    simp
  · exact jumpsLE_append_le (jumpsLE_mono hjumps (by simp))
      (jumpsLE_single_jump rfl).2 (by simp)

/-- The `ELSE_IF` step: patch the chain's `JUMP_ZERO` to just past the
fresh unconditional `JUMP`, push that `JUMP`, queue it as an end-jump. -/
theorem FCInv_elseif {st : FCState} {k : Nat} (hinv : FCInv st)
    (hk : st.chainJumpIndex = some k) :
    FCInv { result :=
              (st.result.set k
                (setPosition (st.result.getD k .tiFlowEndIf) (st.chainJumpPos + 1))) ++
              [.jump 0]
            endJumpIndices := st.endJumpIndices ++
              [(st.result.set k
                (setPosition (st.result.getD k .tiFlowEndIf) (st.chainJumpPos + 1))).length]
            endJumpPos := st.endJumpPos.map (· + 1) ++ [0]
            chainJumpIndex := none
            chainJumpPos := st.chainJumpPos } := by
  obtain ⟨hlen, hpairs, hchain, hjumps⟩ := hinv
  have hklen := hchain k hk
  have hr1len : (st.result.set k
      (setPosition (st.result.getD k .tiFlowEndIf) (st.chainJumpPos + 1))).length =
      st.result.length := List.length_set _ _ _
  refine ⟨by simp [hlen], ?_, ?_, ?_⟩
  · intro q hq
    rw [List.zip_append (by simpa using hlen)] at hq
    rcases List.mem_append.mp hq with hq | hq
    · simp only [List.zip_map_right] at hq
      obtain ⟨⟨a, b⟩, hab, rfl⟩ := List.mem_map.mp hq
      have := hpairs _ hab
      simp only [List.length_append, List.length_singleton, hr1len, Prod.map, id_eq]
      omega
    · simp only [List.zip_cons_cons, List.zip_nil_right, List.mem_singleton] at hq
      subst hq
      simp [List.length_append, List.length_singleton, hr1len]
  · intro k' hk'
    cases hk'
  · refine jumpsLE_append_le ?_ (jumpsLE_single_jump rfl).1 (by simp [hr1len])
    have : jumpsLE st.result (st.result.length + 1) := jumpsLE_mono hjumps (by omega)
    have hset := @jumpsLE_set st.result (st.result ++ [Instruction.jump 0]).length
      k (st.chainJumpPos + 1) (st.result.getD k .tiFlowEndIf)
      (jumpsLE_mono hjumps (by simp)) (by simp; omega)
    simpa using hset

/-- The invariant of `convertFC` propagates: any successful result (either
shape) has all jump targets within the produced code. -/
theorem convertFCGo_jumpsLE :
    ∀ (fuel : Nat) (insns : List Instruction) (i : Nat) (st : FCState) (r : ConvertResult),
      (∀ x ∈ insns, notJumpInsn x) → FCInv st →
      convertFCGo fuel insns i st = .ok r →
      jumpsLE (resultCode r) (resultCode r).length := by
  intro fuel
  induction fuel with
  | zero =>
      intro insns i st r hno hinv hok
      cases insns with
      | nil =>
          simp only [convertFCGo] at hok
          injection hok with hok
          subst hok
          simpa [resultCode] using hinv.2.2.2
      | cons a t => simp [convertFCGo] at hok
  | succ fuel ih =>
      intro insns i st r hno hinv hok
      cases insns with
      | nil =>
          simp only [convertFCGo] at hok
          injection hok with hok
          subst hok
          simpa [resultCode] using hinv.2.2.2
      | cons insn rest =>
          have hnoTail : ∀ x ∈ rest, notJumpInsn x :=
            fun x hx => hno x (List.mem_cons_of_mem _ hx)
          cases insn with
          | tiFlowBeginIf =>
              rw [convertFCGo] at hok
              cases hrec : convertFCGo fuel rest 0 {} with
              | error e => rw [hrec] at hok; exact absurd hok (by simp)
              | ok cr =>
                  cases cr with
                  | done res => rw [hrec] at hok; exact absurd hok (by simp)
                  | pair skip block =>
                      rw [hrec] at hok
                      have hblock : jumpsLE block block.length := by
                        have := ih rest 0 {} (.pair skip block) hnoTail FCInv_init hrec
                        simpa [resultCode] using this
                      exact ih (rest.drop skip) (i + skip + 1) _ r
                        (fun x hx => hnoTail x (List.drop_subset _ _ hx))
                        (FCInv_appendBlock hinv hblock) hok
          | tiFlowThen =>
              rw [convertFCGo] at hok
              exact ih rest (i + 1) _ r hnoTail (FCInv_then hinv) hok
          | tiFlowElseIf =>
              rw [convertFCGo] at hok
              cases hk : st.chainJumpIndex with
              | none => rw [hk] at hok; exact absurd hok (by simp)
              | some k =>
                  rw [hk] at hok
                  exact ih rest (i + 1) _ r hnoTail (FCInv_elseif hinv hk) hok
          | tiFlowEndIf =>
              rw [convertFCGo] at hok
              injection hok with hok
              subst hok
              simp only [resultCode]
              cases hk : st.chainJumpIndex with
              | none =>
                  simp only [hk]
                  have hle : jumpsLE st.result st.result.length := hinv.2.2.2
                  have hplen := patchEndJumps_length
                    (st.endJumpIndices.zip st.endJumpPos) st.result
                  rw [hplen]
                  exact patchEndJumps_jumpsLE _ _ hle hinv.2.1
              | some k =>
                  simp only [hk]
                  have hchain := hinv.2.2.1 k hk
                  have hset : jumpsLE
                      (st.result.set k (setPosition (st.result.getD k .tiFlowEndIf)
                        st.chainJumpPos)) st.result.length :=
                    jumpsLE_set hinv.2.2.2 (by omega)
                  have hplen := patchEndJumps_length
                    (st.endJumpIndices.zip st.endJumpPos)
                    (st.result.set k (setPosition (st.result.getD k .tiFlowEndIf)
                      st.chainJumpPos))
                  rw [hplen, List.length_set]
                  refine patchEndJumps_jumpsLE _ _ hset ?_
                  intro q hq
                  exact hinv.2.1 q hq
          | _ =>
              simp only [convertFCGo] at hok
              first
              | exact absurd (hno _ (List.mem_cons_self _ _)) (fun h => h)
              | exact ih rest (i + 1) _ r hnoTail
                  (FCInv_appendBlock hinv (jumpsLE_single (by exact trivial))) hok

theorem notJumpInsn_ite {c : Prop} [Decidable c] {x y : Instruction}
    (hx : notJumpInsn x) (hy : notJumpInsn y) :
    notJumpInsn (if c then x else y) := by
  split <;> assumption

/-- `compile`'s token loop never emits a resolved jump: only `convertFC`
creates them. -/
theorem genToken_notJump (tok : Sum Str RMatch) (x : Instruction)
    (h : genToken tok = .ok x) : notJumpInsn x := by
  cases tok with
  | inl lit =>
      injection h with h
      subst h
      trivial
  | inr m =>
      cases m with
      | delayM t f => injection h with h; subst h; trivial
      | printM fl w p fmt => injection h with h; subst h; trivial
      | paramM d => injection h with h; subst h; trivial
      | varM op name =>
          injection h with h
          subst h
          split <;> trivial
      | charM c =>
          simp only [genToken] at h
          split at h
          · exact absurd h (by simp)
          · injection h with h; subst h; trivial
      | intM ds => injection h with h; subst h; trivial
      | otherM c =>
          injection h with h
          subst h
          repeat' apply notJumpInsn_ite
          all_goals trivial

theorem rawInstructions_noJumps (s : Str) (raw : List Instruction)
    (h : rawInstructions s = .ok raw) : ∀ x ∈ raw, notJumpInsn x := by
  unfold rawInstructions at h
  revert raw h
  induction tokenizeStr s with
  | nil =>
      intro raw h x hx
      simp only [List.mapM_nil] at h
      injection h with h
      subst h
      simp at hx
  | cons a t ih =>
      intro raw h x hx
      rw [List.mapM_cons] at h
      cases ha : genToken a with
      | error e => rw [ha] at h; exact absurd h (by simp [bind, Except.bind])
      | ok b =>
          rw [ha] at h
          simp only [bind, Except.bind] at h
          cases ht : t.mapM genToken with
          | error e => rw [ht] at h; exact absurd h (by simp [pure, Except.pure])
          | ok bs =>
              rw [ht] at h
              simp only [pure, Except.pure] at h
              injection h with h
              subst h
              rcases List.mem_cons.mp hx with rfl | hx
              · exact genToken_notJump a x ha
              · exact ih bs ht x hx

/-- **C6** (confirmed).  For every capability string the compiler accepts,
every `JUMP` and `JUMP_ZERO` instruction in the produced code carries a
relative offset such that `index + position + 1` is at most the program
length (reaching the length halts the VM), so no jump moves the program
counter outside the instruction list. -/
theorem compile_jump_targets_in_range (s : Str) (r : ConvertResult)
    (h : compile s = .ok r) : jumpsLE (resultCode r) (resultCode r).length := by
  unfold compile at h
  cases hraw : rawInstructions s with
  | error e => rw [hraw] at h; exact absurd h (by simp [bind, Except.bind])
  | ok raw =>
      rw [hraw] at h
      simp only [bind, Except.bind] at h
      rw [convertFC] at h
      exact convertFCGo_jumpsLE _ raw 0 {} r
        (rawInstructions_noJumps s raw hraw) FCInv_init h

/-- The compiled form of `"%?%p1%t yes%e no%;"` (used as the C6 witness
input). -/
def c6code : List Instruction :=
  [.pushParam 1, .jumpZero 2, .out [' ', 'y', 'e', 's'], .jump 1,
   .out [' ', 'n', 'o']]

/-- **C6** (witness): the theorem applied to a concrete conditional
capability whose compiled form contains both a `JUMP_ZERO` and a `JUMP`. -/
theorem compile_jump_targets_in_range_witness :
    compile "%?%p1%t yes%e no%;".data = .ok (.done c6code) ∧
    jumpsLE (resultCode (.done c6code)) (resultCode (.done c6code)).length :=
  ⟨rfl, compile_jump_targets_in_range "%?%p1%t yes%e no%;".data (.done c6code) rfl⟩
